import Mathlib

/-!
# argparse.h : tokenizer, entries and registry

A shallow embedding of `src/include/argparse.h` (namespace `argparse`).

* `std::string` / `std::string_view` are lists of characters (`Str`).  The tokens come from
  `argv`, so they are NUL-terminated: reading `s[s.size()]` gives the terminator (`charAt`).
* `std::string::npos` is `none`; `find` returns `Option Nat`.
* `std::set<std::string>` is a duplicate-free list, `std::map<string_view, string>` an
  association list with unique keys; the code only ever calls `insert`, `operator[]=` and
  `find` on them.
* An exception leaving a function is an `Except Exc` result.
-/

namespace argparse

/-- Strings of the program: sequences of characters. -/
abbrev Str := List Char

/-- The two exception classes the standard numeric parsers throw. -/
inductive Exc where
  | invalid_argument
  | out_of_range
  deriving DecidableEq, Repr

/-- The character `s[i]` of a NUL-terminated string (`s[s.size()]` is the terminator). -/
def charAt (s : Str) (i : Nat) : Char := s.getD i (Char.ofNat 0)

/-- Scan of `std::string::find`: first position of `c`, counting from `i`. -/
def findAux (c : Char) : Str → Nat → Option Nat
  | [], _ => none
  | x :: xs, i => if x = c then some i else findAux c xs (i + 1)

/-- `s.find(c, start)`: the first index `≥ start` holding `c`, `none` for `npos`. -/
def find (s : Str) (c : Char) (start : Nat) : Option Nat := findAux c (s.drop start) start

/-- `s.substr(pos)`. -/
def substr (s : Str) (pos : Nat) : Str := s.drop pos

/-- `s.substr(pos, n)`. -/
def substrN (s : Str) (pos n : Nat) : Str := (s.drop pos).take n

/-- `std::isdigit` in the "C" locale. -/
def isdigit (c : Char) : Bool := c.isDigit

/-- `std::set::insert`. -/
def setInsert (x : Str) (s : List Str) : List Str := if x ∈ s then s else s ++ [x]

/-- `std::set::find(key) != end()`. -/
def setHas (s : List Str) (x : Str) : Bool := decide (x ∈ s)

/-- `m[k] = v` on a `std::map`. -/
def mapAssign (k v : Str) (m : List (Str × Str)) : List (Str × Str) :=
  (k, v) :: m.filter (fun p => p.1 != k)

/-- `std::map::find(key)`: the mapped value, `none` for `end()`. -/
def mapFind (m : List (Str × Str)) (k : Str) : Option Str := m.lookup k

/-- Loop of `split`: `start` is the loop variable, `splits` the accumulator; the loop ends
when `find` returns `npos`. -/
def splitLoop (str : Str) : Nat → Nat → List Str → List Str
  | 0, _, splits => splits
  | fuel + 1, start, splits =>
    match find str ',' start with
    | none => splits ++ [substr str start]
    | some e => splitLoop str fuel (e + 1) (splits ++ [substrN str start (e - start)])

/-- `split(str)`: the pieces of `str` between commas. Every iteration but the last passes a
comma, so `str.size() + 1` iterations are enough. -/
def split (str : Str) : List Str := splitLoop str (str.length + 1) 0 []

/-- `Entry::ARG_TYPE`. -/
inductive ARG_TYPE where
  | ARG
  | KWARG
  | FLAG
  deriving DecidableEq, Repr

/-- `struct Entry`. -/
structure Entry where
  type : ARG_TYPE
  keys : List Str
  help : Str
  value : Str
  implicit_value : Option Str
  default_str : Option Str
  error : Str
  deriving DecidableEq, Repr

/-- `Entry::Entry(type, key, help, implicit_value)`. -/
def Entry.mk4 (type : ARG_TYPE) (key help : Str) (implicit_value : Option Str) : Entry :=
  { type := type, keys := split key, help := help, value := [],
    implicit_value := implicit_value, default_str := none, error := [] }

/-- `Entry::find` on `_kwargs`: the value of the first key of the entry that is mapped. -/
def Entry.findMap (keys : List Str) (collection : List (Str × Str)) : Option Str :=
  match keys with
  | [] => none
  | key :: rest =>
    match mapFind collection key with
    | some v => some v
    | none => Entry.findMap rest collection

/-- `Entry::find` on `_flags`, compared with `end()`: some key of the entry is a member. -/
def Entry.findSet (keys : List Str) (collection : List Str) : Bool :=
  match keys with
  | [] => false
  | key :: rest => if setHas collection key then true else Entry.findSet rest collection

/-- `class Args`. -/
structure Args where
  _arg_idx : Int
  _help : Bool
  program_name : Str
  _options : List Entry
  _arg_options : List Entry
  _args : List Str
  _flags : List Str
  _kwargs : List (Str × Str)
  deriving DecidableEq, Repr

/-- The lambda `is_param` of the constructor. -/
def is_param (params : List Str) (i : Nat) : Bool :=
  decide (params.length > i) &&
    (charAt (params.getD i []) 0 != '-' ||
      (decide ((params.getD i []).length > 1) && isdigit (charAt (params.getD i []) 1)))

/-- The lambda `add_param` of the constructor; `i` is passed by reference, so its new value
is returned. In every call `start ≤ eq_idx`, so `eq_idx - start` does not wrap. -/
def add_param (params : List Str) (a : Args) (i start : Nat) : Args × Nat :=
  match find (params.getD i []) '=' 0 with
  | some eq_idx =>
    ({ a with _kwargs := mapAssign (substrN (params.getD i []) start (eq_idx - start))
                (substr (params.getD i []) (eq_idx + 1)) a._kwargs }, i)
  | none =>
    if is_param params (i + 1) then
      ({ a with _kwargs := mapAssign (substr (params.getD i []) start)
                  (params.getD (i + 1) []) a._kwargs }, i + 1)
    else
      ({ a with _flags := setInsert (substr (params.getD i []) start) a._flags }, i)

/-- `std::min(params[i].size(), params[i].find('=')) - 1` of the short branch. -/
def j_end (p : Str) : Nat :=
  (match find p '=' 0 with
   | some e => min p.length e
   | none => p.length) - 1

/-- The inner loop `for (j = 1; j < j_end; j++) _flags.insert(string(1, params[i][j]))`. -/
def shortFlags (p : Str) (jend : Nat) (flags : List Str) : List Str :=
  (List.range' 1 (jend - 1)).foldl (fun fl j => setInsert [charAt p j] fl) flags

/-- The main loop of the constructor, `for (i = 0; i < params.size(); i++)`, from index `i`.
Each iteration advances `i`, so `params.size() - i` iterations are enough (`fuel`). -/
def ctorLoop (params : List Str) : Nat → Nat → Args → Args
  | 0, _, a => a
  | fuel + 1, i, a =>
    if i < params.length then
      if !is_param params i then
        if decide ((params.getD i []).length > 1) && charAt (params.getD i []) 1 == '-' then
          ctorLoop params fuel ((add_param params a i 2).2 + 1) (add_param params a i 2).1
        else
          ctorLoop params fuel
            ((add_param params
                { a with _flags := shortFlags (params.getD i []) (j_end (params.getD i [])) a._flags }
                i (j_end (params.getD i []))).2 + 1)
            (add_param params
                { a with _flags := shortFlags (params.getD i []) (j_end (params.getD i [])) a._flags }
                i (j_end (params.getD i []))).1
      else
        ctorLoop params fuel (i + 1) { a with _args := a._args ++ [params.getD i []] }
    else a

/-- The members of `Args` before the constructor body runs. -/
def Args.init (program_name : Str) : Args :=
  { _arg_idx := -1, _help := false, program_name := program_name, _options := [],
    _arg_options := [], _args := [], _flags := [], _kwargs := [] }

/-- `std::to_string` of a `bool` (promoted to `int`). -/
def boolToString (b : Bool) : Str := if b then ['1'] else ['0']

/-- The decimal digits of a natural number. -/
def to_string (n : Nat) : Str := Nat.toDigits 10 n

/-- `std::to_string` and `operator<<` on a signed integer. -/
def intToString (n : Int) : Str := if n < 0 then '-' :: to_string n.natAbs else to_string n.toNat

/-- `Args::flag(key, help)`: the new registry and the returned `bool`. -/
def Args.flag (a : Args) (key help : Str) : Args × Bool :=
  let entry := Entry.mk4 ARG_TYPE.FLAG key help (some "true".toList)
  let found := Entry.findSet entry.keys a._flags
  ({ a with _options := a._options ++ [{ entry with value := boolToString found }] }, found)

/-- `Args::arg(help)`: the new registry and the entry the returned reference points to.
`++_arg_idx` is never negative, so its conversion to `size_t` in the comparison with
`_args.size()` keeps its value. -/
def Args.arg (a : Args) (help : Str) : Args × Entry :=
  let entry := Entry.mk4 ARG_TYPE.ARG ("arg_".toList ++ intToString (a._arg_idx + 1)) help none
  let entry := if (a._arg_idx + 1).toNat < a._args.length then
      { entry with value := a._args.getD (a._arg_idx + 1).toNat [] } else entry
  ({ a with _arg_idx := a._arg_idx + 1, _arg_options := a._arg_options ++ [entry] }, entry)

/-- `Args::kwarg(key, help, implicit_value)`: the new registry and the entry the returned
reference points to. -/
def Args.kwarg (a : Args) (key help : Str) (implicit_value : Option Str) : Args × Entry :=
  let entry := Entry.mk4 ARG_TYPE.KWARG key help implicit_value
  let entry :=
    match Entry.findMap entry.keys a._kwargs with
    | some v => { entry with value := v }
    | none =>
      match implicit_value with
      | some iv => if Entry.findSet entry.keys a._flags then { entry with value := iv } else entry
      | none => entry
  ({ a with _options := a._options ++ [entry] }, entry)

/-- The tokenizer: the constructor body up to the end of the main loop. -/
def Args.tokenize (program_name : Str) (params : List Str) : Args :=
  ctorLoop params params.length 0 (Args.init program_name)

/-- `Args::Args(argc, argv)` with `argv[0] = program_name` and `argv[1..] = params`. -/
def Args.ctor (program_name : Str) (params : List Str) : Args :=
  let a := (Args.tokenize program_name params).flag "help".toList "print help".toList
  { a.1 with _help := a.2 }

/-- The test of `is_param` on one token: it does not begin with `-`, or a digit follows the
leading `-`. -/
def tokenIsParam (p : Str) : Bool :=
  charAt p 0 != '-' || (decide (p.length > 1) && isdigit (charAt p 1))

/-- The value of `start` that the main loop passes to `add_param` for the option token `p`. -/
def optStart (p : Str) : Nat :=
  if decide (p.length > 1) && charAt p 1 == '-' then 2 else j_end p

/-- The registry when `add_param` is entered for the option token `p`: a short cluster has
registered its leading characters as flags. -/
def optEnter (p : Str) (a : Args) : Args :=
  if decide (p.length > 1) && charAt p 1 == '-' then a
  else { a with _flags := shortFlags p (j_end p) a._flags }

/-- An option name waiting for the next token is registered as a flag. -/
def flush (s : Args × Option Str) : Args :=
  match s.2 with
  | none => s.1
  | some k => { s.1 with _flags := setInsert k s.1._flags }

/-- The main loop read as a fold over the tokens: the second component is the name of an
option without `=` whose next token has not been seen yet. -/
def step (s : Args × Option Str) (p : Str) : Args × Option Str :=
  if tokenIsParam p then
    match s.2 with
    | some k => ({ s.1 with _kwargs := mapAssign k p s.1._kwargs }, none)
    | none => ({ s.1 with _args := s.1._args ++ [p] }, none)
  else
    match find p '=' 0 with
    | some eq_idx =>
      ({ optEnter p (flush s) with
          _kwargs := mapAssign (substrN p (optStart p) (eq_idx - optStart p))
            (substr p (eq_idx + 1)) (optEnter p (flush s))._kwargs }, none)
    | none => (optEnter p (flush s), some (substr p (optStart p)))

/-- The fold form of the tokenizer from a given registry. -/
def runTokens (a : Args) (params : List Str) : Args :=
  flush (params.foldl step (a, none))

/-- Positional-shaped, in the words of the specification: the token does not begin with
`-`, or it begins with `-` immediately followed by a decimal digit. -/
def positionalShaped : Str → Bool
  | [] => true
  | c :: rest =>
    c != '-' ||
      (match rest with
       | d :: _ => decide ('0' ≤ d ∧ d ≤ '9')
       | [] => false)

/-- Consumed as an option value, in the words of the specification: the token at index `i`
is consumed iff `i > 0` and the token at index `i - 1` is option-shaped (not
positional-shaped) and contains no `=`. -/
def consumedAt (params : List Str) (i : Nat) : Bool :=
  decide (i > 0) && !positionalShaped (params.getD (i - 1) []) &&
    !decide ('=' ∈ params.getD (i - 1) [])

/-- The positional values, in the words of the specification: the tokens, left to right,
that are positional-shaped and not consumed as an option value. -/
def positionalSpec (params : List Str) : List Str :=
  ((List.range params.length).filter
      (fun i => positionalShaped (params.getD i []) && !consumedAt params i)).map
    (fun i => params.getD i [])

/-- A declaration call made by the caller after construction. -/
inductive Decl where
  | arg (help : Str)
  | kwarg (key help : Str) (implicit_value : Option Str)
  | flag (key help : Str)
  deriving DecidableEq, Repr

/-- The registry after one declaration call. -/
def Args.declare (a : Args) : Decl → Args
  | Decl.arg help => (a.arg help).1
  | Decl.kwarg key help implicit_value => (a.kwarg key help implicit_value).1
  | Decl.flag key help => (a.flag key help).1

/-- The registry after a sequence of declaration calls, in order. -/
def Args.declareAll (a : Args) (ds : List Decl) : Args := ds.foldl Args.declare a

/-- The number of calls of `arg` in a sequence of declaration calls. -/
def countArgs : List Decl → Nat
  | [] => 0
  | Decl.arg _ :: ds => countArgs ds + 1
  | _ :: ds => countArgs ds

/-- What `_convert<T>` needs of the requested type `T`: the parser `get<T>`, the value
`T{}` and `toString` on `T`. -/
structure Conv (T : Type) where
  get : Str → Except Exc T
  zero : T
  toString : T → Str

/-- The loop of `Entry::get_keys`, from index `i`. -/
def get_keysLoop (type : ARG_TYPE) : List Str → Nat → Str
  | [], _ => []
  | key :: rest, i =>
    (if i ≠ 0 then [','] else []) ++
      ((if type = ARG_TYPE.ARG then [] else if key.length > 1 then ['-', '-'] else ['-']) ++ key)
      ++ get_keysLoop type rest (i + 1)

/-- `Entry::get_keys`. -/
def Entry.get_keys (e : Entry) : Str := get_keysLoop e.type e.keys 0

/-- The message of a missing argument. -/
def missingMsg (e : Entry) : Str := "Argument missing: ".toList ++ e.get_keys

/-- The message of a failed conversion. -/
def invalidMsg (e : Entry) : Str :=
  "Invalid argument, could not convert \"".toList ++ e.value ++ "\" for ".toList ++ e.get_keys
    ++ " (".toList ++ e.help ++ ")".toList

/-- `Entry::_convert<T>(default_value)`: the returned value and the entry afterwards, or the
exception that leaves the function. `default_value` is `none` for `nullptr`; `set_default`
is its only caller with a pointer, and has set `default_str` before. Only
`std::invalid_argument` is caught. -/
def Entry._convert {T : Type} (c : Conv T) (e : Entry) (default_value : Option T) :
    Except Exc (T × Entry) :=
  if e.error ≠ [] then Except.ok (c.zero, e)
  else if e.value = [] then
    match default_value with
    | none => Except.ok (c.zero, { e with error := missingMsg e })
    | some d => Except.ok (d, { e with value := e.default_str.getD [] })
  else
    match c.get e.value with
    | Except.ok v => Except.ok (v, e)
    | Except.error Exc.invalid_argument => Except.ok (c.zero, { e with error := invalidMsg e })
    | Except.error Exc.out_of_range => Except.error Exc.out_of_range

/-- `Entry::operator T()`. -/
def Entry.convert {T : Type} (c : Conv T) (e : Entry) : Except Exc (T × Entry) :=
  e._convert c none

/-- `Entry::set_default(default_value)`. -/
def Entry.set_default {T : Type} (c : Conv T) (e : Entry) (default_value : T) :
    Except Exc (T × Entry) :=
  Entry._convert c { e with default_str := some (c.toString default_value) } (some default_value)

/-- `std::isspace` in the "C" locale. -/
def isspace (c : Char) : Bool :=
  c = ' ' || c = Char.ofNat 9 || c = Char.ofNat 10 || c = Char.ofNat 11 || c = Char.ofNat 12
    || c = Char.ofNat 13

/-- The subject sequence that `strtol`/`strtoul` read in base 10: leading white space is
skipped, then an optional sign, then the longest run of decimal digits; what follows is
ignored. The result is the sign and the magnitude, `none` when there is no digit. -/
def parseDecimal (v : Str) : Option (Bool × Nat) :=
  match
    (match v.dropWhile isspace with
     | '-' :: r => (true, r)
     | '+' :: r => (false, r)
     | r => (false, r)) with
  | (neg, r) =>
    if r.takeWhile isdigit = [] then none
    else some (neg, (r.takeWhile isdigit).foldl (fun acc d => 10 * acc + (d.toNat - 48)) 0)

/-- The signed value of a parsed sign and magnitude. -/
def signedValue (x : Bool × Nat) : Int := if x.1 then -(x.2 : Int) else (x.2 : Int)

/-- `std::stoi(v)` for a 32-bit `int`: `std::invalid_argument` when no conversion can be
done, `std::out_of_range` when the value is not an `int`. -/
def stoi (v : Str) : Except Exc Int :=
  match parseDecimal v with
  | none => Except.error Exc.invalid_argument
  | some x =>
    if -(2 : Int) ^ 31 ≤ signedValue x ∧ signedValue x ≤ 2 ^ 31 - 1 then Except.ok (signedValue x)
    else Except.error Exc.out_of_range

/-- `std::stol(v)` for a 64-bit `long`. -/
def stol (v : Str) : Except Exc Int :=
  match parseDecimal v with
  | none => Except.error Exc.invalid_argument
  | some x =>
    if -(2 : Int) ^ 63 ≤ signedValue x ∧ signedValue x ≤ 2 ^ 63 - 1 then Except.ok (signedValue x)
    else Except.error Exc.out_of_range

/-- `std::stoul(v)` for a 64-bit `unsigned long`: a magnitude above `ULONG_MAX` is out of
range, a leading `-` negates in the unsigned type. -/
def stoul (v : Str) : Except Exc Nat :=
  match parseDecimal v with
  | none => Except.error Exc.invalid_argument
  | some x =>
    if x.2 ≤ 2 ^ 64 - 1 then Except.ok (if x.1 then (2 ^ 64 - x.2) % 2 ^ 64 else x.2)
    else Except.error Exc.out_of_range

/-- `get<int>`. -/
def get_int (v : Str) : Except Exc Int := stoi v

/-- `get<long>`. -/
def get_long (v : Str) : Except Exc Int := stol v

/-- `get<unsigned int>`: the `unsigned long` of `std::stoul` narrowed to 32 bits. -/
def get_unsigned_int (v : Str) : Except Exc Nat :=
  match stoul v with
  | Except.ok n => Except.ok (n % 2 ^ 32)
  | Except.error e => Except.error e

/-- `get<unsigned long>`. -/
def get_unsigned_long (v : Str) : Except Exc Nat := stoul v

/-- `get<std::string>`. -/
def get_string (v : Str) : Except Exc Str := Except.ok v

/-- `get<bool>`. -/
def get_bool (v : Str) : Except Exc Bool :=
  Except.ok (decide (v = "true".toList) || decide (v = "TRUE".toList) || decide (v = "1".toList))

/-- The type `int` for `_convert`. -/
def intConv : Conv Int := { get := get_int, zero := 0, toString := intToString }

/-- The type `long` for `_convert`. -/
def longConv : Conv Int := { get := get_long, zero := 0, toString := intToString }

/-- The type `unsigned int` for `_convert`. -/
def unsignedIntConv : Conv Nat := { get := get_unsigned_int, zero := 0, toString := to_string }

/-- The type `unsigned long` for `_convert`. -/
def unsignedLongConv : Conv Nat := { get := get_unsigned_long, zero := 0, toString := to_string }

/-- The type `std::string` for `_convert`. -/
def stringConv : Conv Str := { get := get_string, zero := [], toString := fun v => v }

/-- The type `bool` for `_convert`; `operator<<` prints a `bool` as `1` or `0`. -/
def boolConv : Conv Bool := { get := get_bool, zero := false, toString := boolToString }

/-- `std::transform(first, last, res.begin(), op)` with an `op` that may throw: the results
in order, or the first exception. -/
def transform {T : Type} (op : Str → Except Exc T) : List Str → Except Exc (List T)
  | [] => Except.ok []
  | x :: xs =>
    match op x with
    | Except.error e => Except.error e
    | Except.ok y =>
      match transform op xs with
      | Except.error e => Except.error e
      | Except.ok ys => Except.ok (y :: ys)

/-- `get_vector_optional_default<T>` for a vector type, that is `get<std::vector<E>>`:
`res` has `splitted.size()` value-initialised elements, overwritten when `v` is not empty. -/
def get_vector {E : Type} (c : Conv E) (v : Str) : Except Exc (List E) :=
  if v ≠ [] then transform c.get (split v)
  else Except.ok (List.replicate (split v).length c.zero)

/-- The pieces of a string between its commas, by recursion on the string. -/
def splitRef : Str → List Str
  | [] => [[]]
  | c :: cs =>
    if c = ',' then [] :: splitRef cs
    else
      match splitRef cs with
      | [] => [[c]]
      | h :: t => (c :: h) :: t

/-- `get_vector_optional_default<T>` for an optional type, that is `get<std::optional<E>>`. -/
def get_optional {E : Type} (c : Conv E) (v : Str) : Except Exc (Option E) :=
  match c.get v with
  | Except.ok x => Except.ok (some x)
  | Except.error e => Except.error e

/-- The type `std::optional<E>` for `_convert`: `T{}` is the empty optional, and `toString`
falls back to `unknown` because an optional has no `operator<<`. -/
def optionalConv {E : Type} (c : Conv E) : Conv (Option E) :=
  { get := get_optional c, zero := none, toString := fun _ => "unknown".toList }

/-- The type `std::vector<E>` for `_convert`; a vector has no `operator<<` either. -/
def vectorConv {E : Type} (c : Conv E) : Conv (List E) :=
  { get := get_vector c, zero := [], toString := fun _ => "unknown".toList }

/-- The outcome of `Args::validate`: `help()` and `exit(0)`, the first error on `cerr` and
`exit(-1)`, or a normal return. -/
inductive ValidateResult where
  | helpExit
  | errorExit (msg : Str)
  | returned
  deriving DecidableEq, Repr

/-- The status passed to `exit`, `none` when `validate` returns. -/
def ValidateResult.exitStatus : ValidateResult → Option Int
  | ValidateResult.helpExit => some 0
  | ValidateResult.errorExit _ => some (-1)
  | ValidateResult.returned => none

/-- The inner loop of `validate` over one list of entries: the first non-empty error. -/
def scanErrors : List Entry → Option Str
  | [] => none
  | entry :: rest => if entry.error ≠ [] then some entry.error else scanErrors rest

/-- `Args::validate`: the outer loop visits `_arg_options`, then `_options`. -/
def Args.validate (a : Args) : ValidateResult :=
  if a._help then ValidateResult.helpExit
  else
    match scanErrors a._arg_options with
    | some msg => ValidateResult.errorExit msg
    | none =>
      match scanErrors a._options with
      | some msg => ValidateResult.errorExit msg
      | none => ValidateResult.returned

/-- A conversion request on an entry: `operator T()` without a default, `set_default(d)`
with one. -/
def Entry.request {T : Type} (c : Conv T) (e : Entry) : Option T → Except Exc (T × Entry)
  | none => e.convert c
  | some d => e.set_default c d

/-- `T x = arg(help);` or `T x = arg(help).set_default(d);`: the conversion acts through the
returned reference, which is the last element of `_arg_options`. -/
def Args.argAs {T : Type} (c : Conv T) (a : Args) (help : Str) (dflt : Option T) :
    Except Exc (T × Args) :=
  match Entry.request c (a.arg help).2 dflt with
  | Except.ok (v, e) =>
    Except.ok (v, { (a.arg help).1 with
      _arg_options := (a.arg help).1._arg_options.dropLast ++ [e] })
  | Except.error x => Except.error x

/-- `T x = kwarg(key, help, implicit_value);`, with or without `.set_default(d)`: the
conversion acts through the returned reference, the last element of `_options`. -/
def Args.kwargAs {T : Type} (c : Conv T) (a : Args) (key help : Str)
    (implicit_value : Option Str) (dflt : Option T) : Except Exc (T × Args) :=
  match Entry.request c (a.kwarg key help implicit_value).2 dflt with
  | Except.ok (v, e) =>
    Except.ok (v, { (a.kwarg key help implicit_value).1 with
      _options := (a.kwarg key help implicit_value).1._options.dropLast ++ [e] })
  | Except.error x => Except.error x

/-- The registry with its declared entries as conversions have left them: conversions write
to the entries only. -/
def Args.withEntries (a : Args) (arg_options options : List Entry) : Args :=
  { a with _arg_options := arg_options, _options := options }

/-- `std::isxdigit` in the "C" locale. -/
def isxdigit (c : Char) : Bool :=
  isdigit c || decide ('a' ≤ c ∧ c ≤ 'f') || decide ('A' ≤ c ∧ c ≤ 'F')

/-- The value of a hexadecimal digit. -/
def hexDigitVal (c : Char) : Nat :=
  if isdigit c then c.toNat - 48
  else if 'a' ≤ c ∧ c ≤ 'f' then c.toNat - 87
  else c.toNat - 55

/-- The magnitude of a run of decimal digits. -/
def decimalValue (ds : Str) : Nat := ds.foldl (fun acc d => 10 * acc + (d.toNat - 48)) 0

/-- The magnitude of a run of hexadecimal digits. -/
def hexValue (hs : Str) : Nat := hs.foldl (fun acc d => 16 * acc + hexDigitVal d) 0

/-- The subject sequence that `strtoul` reads in base 16: white space, an optional sign, an
optional `0x` or `0X` that a hexadecimal digit follows, then the longest run of hexadecimal
digits; `none` when there is no digit. -/
def parseHex (v : Str) : Option (Bool × Nat) :=
  match
    (match v.dropWhile isspace with
     | '-' :: r => (true, r)
     | '+' :: r => (false, r)
     | r => (false, r)) with
  | (neg, r) =>
    match
      (match r with
       | '0' :: x :: h :: t => if (x == 'x' || x == 'X') && isxdigit h then h :: t else r
       | _ => r) with
    | body =>
      if body.takeWhile isxdigit = [] then none
      else some (neg, hexValue (body.takeWhile isxdigit))

/-- `std::stoul(v, nullptr, 16)` for a 64-bit `unsigned long`. -/
def stoul16 (v : Str) : Except Exc Nat :=
  match parseHex v with
  | none => Except.error Exc.invalid_argument
  | some x =>
    if x.2 ≤ 2 ^ 64 - 1 then Except.ok (if x.1 then (2 ^ 64 - x.2) % 2 ^ 64 else x.2)
    else Except.error Exc.out_of_range

/-- `get<char>`: the cast `(char)` keeps the low byte of the number. -/
def get_char (v : Str) : Except Exc Char :=
  if v = [] then Except.error Exc.invalid_argument
  else if v.length > 1 then
    if substrN v 0 2 = ['0', 'x'] then
      match stoul16 v with
      | Except.ok n => Except.ok (Char.ofNat (n % 256))
      | Except.error e => Except.error e
    else
      match stoi v with
      | Except.ok n => Except.ok (Char.ofNat (n % 256).toNat)
      | Except.error e => Except.error e
  else Except.ok (charAt v 0)

/-- `get<unsigned char>`: `get<char>` seen as an unsigned byte. -/
def get_unsigned_char (v : Str) : Except Exc Char := get_char v

/-- The name an option token stands for: for a long option the text between the leading
`--` and the first `=` (or the end of the token); for a short cluster its last character
before the first `=` (or the end of the token). -/
def optionName (p : Str) : Str :=
  match p with
  | '-' :: '-' :: rest => rest.takeWhile (fun c => c != '=')
  | _ => ((p.takeWhile (fun c => c != '=')).getLast?).toList

/-- The value an option token with `=` carries: the text after the first `=`. -/
def optionValue (p : Str) : Str := (p.dropWhile (fun c => c != '=')).drop 1

/-- The value-carrying occurrences of a token list, left to right, as pairs of option name
and value: an option token with `=` carries the text after its first `=`, and an option
token without `=` carries the next token when that token is positional-shaped. `pending`
is the name of the previous token when that token was an option without `=`. -/
def occurrencesFrom (pending : Option Str) : List Str → List (Str × Str)
  | [] => []
  | p :: rest =>
    if positionalShaped p then
      match pending with
      | some k => (k, p) :: occurrencesFrom none rest
      | none => occurrencesFrom none rest
    else if '=' ∈ p then (optionName p, optionValue p) :: occurrencesFrom none rest
    else occurrencesFrom (some (optionName p)) rest

/-- The value-carrying occurrences of a whole token list. -/
def valueOccurrences (params : List Str) : List (Str × Str) := occurrencesFrom none params

/-! ## The main loop as a fold -/

theorem is_param_eq (params : List Str) (i : Nat) :
    is_param params i = (decide (i < params.length) && tokenIsParam (params.getD i [])) := rfl

theorem drop_eq_getD_cons (params : List Str) (i : Nat) (h : i < params.length) :
    params.drop i = params.getD i [] :: params.drop (i + 1) := by
  rw [List.drop_eq_getElem_cons h]
  simp [List.getD_eq_getElem?_getD, List.getElem?_eq_getElem h]

theorem foldl_step_pending (a : Args) (k : Str) (rest : List Str)
    (h : ∀ q rest', rest = q :: rest' → tokenIsParam q = false) :
    flush (rest.foldl step (a, some k)) =
      flush (rest.foldl step ({ a with _flags := setInsert k a._flags }, none)) := by
  cases rest with
  | nil => rfl
  | cons q rest' =>
    have hq := h q rest' rfl
    simp only [List.foldl_cons]
    have : step (a, some k) q = step ({ a with _flags := setInsert k a._flags }, none) q := by
      simp [step, hq, flush]
    rw [this]

theorem ctorLoop_eq_runTokens (params : List Str) :
    ∀ (fuel i : Nat) (a : Args), params.length - i ≤ fuel →
      ctorLoop params fuel i a = runTokens a (params.drop i) := by
  intro fuel
  induction fuel with
  | zero =>
    intro i a h
    have : params.length ≤ i := by omega
    simp [ctorLoop, runTokens, List.drop_of_length_le this, flush]
  | succ fuel ih =>
    intro i a h
    by_cases hi : i < params.length
    · have hd := drop_eq_getD_cons params i hi
      simp only [ctorLoop, hi, if_true]
      by_cases hp : tokenIsParam (params.getD i []) = true
      · have h1 : is_param params i = true := by
          rw [is_param_eq, hp]; simp [hi]
        simp only [h1, Bool.not_true, Bool.false_eq_true, if_false]
        rw [ih (i + 1) _ (by omega), runTokens, runTokens, hd, List.foldl_cons]
        simp only [step, hp, if_true]
      · have hp' : tokenIsParam (params.getD i []) = false := by simpa using hp
        have h1 : is_param params i = false := by
          rw [is_param_eq, hp']; simp
        simp only [h1, Bool.not_false, if_true]
        have key : ∀ (a1 : Args) (start : Nat),
            a1 = optEnter (params.getD i []) a → start = optStart (params.getD i []) →
            ctorLoop params fuel ((add_param params a1 i start).2 + 1) (add_param params a1 i start).1
              = runTokens a (params.drop i) := by
          intro a1 start ha1 hstart
          rw [runTokens, hd, List.foldl_cons]
          cases hf : find (params.getD i []) '=' 0 with
          | some e =>
            simp only [add_param, hf]
            rw [ih (i + 1) _ (by omega), runTokens]
            simp only [step, hp', hf, flush, ha1, hstart, Bool.false_eq_true, if_false]
          | none =>
            by_cases hn : is_param params (i + 1) = true
            · simp only [add_param, hf, hn, if_true]
              rw [ih (i + 1 + 1) _ (by omega), runTokens]
              rw [is_param_eq, Bool.and_eq_true, decide_eq_true_eq] at hn
              have hi1 : i + 1 < params.length := hn.1
              have hq : tokenIsParam (params.getD (i + 1) []) = true := hn.2
              rw [drop_eq_getD_cons params (i + 1) hi1, List.foldl_cons]
              simp only [step, hp', hf, flush, ha1, hstart, hq, Bool.false_eq_true, if_false,
                if_true]
            · have hn' : is_param params (i + 1) = false := by simpa using hn
              simp only [add_param, hf, hn', Bool.false_eq_true, if_false]
              rw [ih (i + 1) _ (by omega), runTokens]
              have hs : step (a, none) (params.getD i []) = (a1, some (substr (params.getD i []) start)) := by
                simp only [step, hp', hf, flush, ha1, hstart, Bool.false_eq_true, if_false]
              rw [hs, foldl_step_pending]
              intro q rest' hrest
              by_cases hi1 : i + 1 < params.length
              · rw [drop_eq_getD_cons params (i + 1) hi1] at hrest
                have hq : params.getD (i + 1) [] = q := (List.cons.inj hrest).1
                rw [is_param_eq, decide_eq_true hi1, Bool.true_and, hq] at hn'
                exact hn'
              · rw [List.drop_of_length_le (by omega)] at hrest
                cases hrest
        by_cases hl : (decide ((params.getD i []).length > 1) && charAt (params.getD i []) 1 == '-') = true
        · simp only [hl, if_true]
          exact key a 2 (by rw [optEnter, if_pos hl]) (by rw [optStart, if_pos hl])
        · simp only [hl, if_false]
          exact key _ _ (by rw [optEnter, if_neg hl]) (by rw [optStart, if_neg hl])
    · have : params.length ≤ i := by omega
      simp [ctorLoop, hi, runTokens, List.drop_of_length_le this, flush]

theorem tokenize_eq_runTokens (program_name : Str) (params : List Str) :
    Args.tokenize program_name params = runTokens (Args.init program_name) params := by
  rw [Args.tokenize, ctorLoop_eq_runTokens params params.length 0 _ (by omega)]
  simp

/-! ## Facts on strings -/

theorem tokenIsParam_eq_positionalShaped (p : Str) : tokenIsParam p = positionalShaped p := by
  cases p with
  | nil => rfl
  | cons c rest =>
    cases rest with
    | nil => simp [tokenIsParam, positionalShaped, charAt]
    | cons d rest' =>
      simp [tokenIsParam, positionalShaped, charAt, isdigit, Char.isDigit, Char.le_def,
        UInt32.le_def, Fin.le_def]

theorem findAux_none (c : Char) (s : Str) (i : Nat) (h : c ∉ s) : findAux c s i = none := by
  induction s generalizing i with
  | nil => rfl
  | cons x xs ih =>
    have hx : x ≠ c := fun e => h (by simp [e])
    have hxs : c ∉ xs := fun e => h (by simp [e])
    simp [findAux, hx, ih _ hxs]

theorem findAux_append (c : Char) (s t : Str) (i : Nat) (h : c ∉ s) :
    findAux c (s ++ c :: t) i = some (i + s.length) := by
  induction s generalizing i with
  | nil => simp [findAux]
  | cons x xs ih =>
    have hx : x ≠ c := fun e => h (by simp [e])
    have hxs : c ∉ xs := fun e => h (by simp [e])
    simp [findAux, hx, ih _ hxs]
    omega

theorem step_long_eq (s : Args × Option Str) (key value : Str) (hkey : '=' ∉ key) :
    step s ('-' :: '-' :: (key ++ '=' :: value)) =
      ({ flush s with _kwargs := mapAssign key value (flush s)._kwargs }, none) := by
  have hf : find ('-' :: '-' :: (key ++ '=' :: value)) '=' 0 = some (2 + key.length) := by
    have := findAux_append '=' key value 2 hkey
    simpa [find, findAux] using this
  have hp : tokenIsParam ('-' :: '-' :: (key ++ '=' :: value)) = false := by
    simp [tokenIsParam, charAt, isdigit, Char.isDigit]
  have hs : optStart ('-' :: '-' :: (key ++ '=' :: value)) = 2 := by
    simp [optStart, charAt]
  have he : optEnter ('-' :: '-' :: (key ++ '=' :: value)) (flush s) = flush s := by
    simp [optEnter, charAt]
  have hk : substrN ('-' :: '-' :: (key ++ '=' :: value)) 2 (2 + key.length - 2) = key := by
    simp [substrN]
  have hv : substr ('-' :: '-' :: (key ++ '=' :: value)) (2 + key.length + 1) = value := by
    have e : ('-' :: '-' :: (key ++ '=' :: value)) = ('-' :: '-' :: (key ++ ['='])) ++ value := by
      simp
    rw [substr, e]
    exact List.drop_left' (by simp; omega)
  simp only [step, hp, hf, hs, he, Bool.false_eq_true, if_false, hk, hv]

theorem step_long_bare (s : Args × Option Str) (key : Str) (hkey : '=' ∉ key) :
    step s ('-' :: '-' :: key) = (flush s, some key) := by
  have hf : find ('-' :: '-' :: key) '=' 0 = none := by
    have := findAux_none '=' key 2 hkey
    simpa [find, findAux] using this
  have hp : tokenIsParam ('-' :: '-' :: key) = false := by
    simp [tokenIsParam, charAt, isdigit, Char.isDigit]
  have hs : optStart ('-' :: '-' :: key) = 2 := by
    simp [optStart, charAt]
  have he : optEnter ('-' :: '-' :: key) (flush s) = flush s := by
    simp [optEnter, charAt]
  simp only [step, hp, hf, hs, he, Bool.false_eq_true, if_false]
  simp [substr]

theorem step_value (a : Args) (k value : Str) (hv : tokenIsParam value = true) :
    step (a, some k) value = ({ a with _kwargs := mapAssign k value a._kwargs }, none) := by
  simp [step, hv]

theorem tokenize_eq_form (program_name key value : Str) (pre post : List Str)
    (hkey : '=' ∉ key) (hval : positionalShaped value = true) :
    Args.tokenize program_name (pre ++ ['-' :: '-' :: (key ++ '=' :: value)] ++ post) =
      Args.tokenize program_name (pre ++ ['-' :: '-' :: key, value] ++ post) := by
  rw [← tokenIsParam_eq_positionalShaped] at hval
  rw [tokenize_eq_runTokens, tokenize_eq_runTokens, runTokens, runTokens]
  simp only [List.foldl_append, List.foldl_cons, List.foldl_nil]
  rw [step_long_eq _ _ _ hkey, step_long_bare _ _ hkey, step_value _ _ _ hval]

/-! ## Positional values -/

theorem findAux_eq_none_iff (c : Char) (s : Str) (i : Nat) : findAux c s i = none ↔ c ∉ s := by
  constructor
  · induction s generalizing i with
    | nil => simp
    | cons x xs ih =>
      intro h
      by_cases hx : x = c
      · simp [findAux, hx] at h
      · simp only [findAux, hx, if_false] at h
        have := ih _ h
        simp [this, Ne.symm hx]
  · exact findAux_none c s i

theorem find_zero_isNone (p : Str) : (find p '=' 0).isNone = !decide ('=' ∈ p) := by
  have h := findAux_eq_none_iff '=' p 0
  by_cases hm : '=' ∈ p
  · have : find p '=' 0 ≠ none := fun e => (h.1 (by simpa [find] using e)) hm
    cases hf : find p '=' 0 with
    | none => exact absurd hf this
    | some e => simp [hm]
  · have : find p '=' 0 = none := by simpa [find] using h.2 hm
    simp [this, hm]

theorem flush_args (s : Args × Option Str) : (flush s)._args = s.1._args := by
  rcases s with ⟨a, _ | k⟩ <;> rfl

theorem optEnter_args (p : Str) (a : Args) : (optEnter p a)._args = a._args := by
  unfold optEnter; split <;> rfl

theorem step_args (s : Args × Option Str) (p : Str) :
    (step s p).1._args =
      s.1._args ++ (if positionalShaped p && !s.2.isSome then [p] else []) := by
  rw [← tokenIsParam_eq_positionalShaped]
  by_cases hp : tokenIsParam p = true
  · rcases s with ⟨a, _ | k⟩ <;> simp [step, hp]
  · have hp' : tokenIsParam p = false := by simpa using hp
    cases hf : find p '=' 0 <;>
      simp [step, hp', hf, optEnter_args, flush_args]

theorem step_pending (s : Args × Option Str) (p : Str) :
    (step s p).2.isSome = (!positionalShaped p && !decide ('=' ∈ p)) := by
  rw [← tokenIsParam_eq_positionalShaped, ← find_zero_isNone]
  by_cases hp : tokenIsParam p = true
  · rcases s with ⟨a, _ | k⟩ <;> simp [step, hp]
  · have hp' : tokenIsParam p = false := by simpa using hp
    cases hf : find p '=' 0 <;> simp [step, hp', hf]

theorem consumedAt_append (params : List Str) (p : Str) (i : Nat) (h : i ≤ params.length) :
    consumedAt (params ++ [p]) i = consumedAt params i := by
  unfold consumedAt
  by_cases hi : i > 0
  · rw [List.getD_append _ _ _ _ (by omega)]
  · simp [hi]

theorem positionalSpec_append (params : List Str) (p : Str) :
    positionalSpec (params ++ [p]) =
      positionalSpec params ++
        (if positionalShaped p && !consumedAt (params ++ [p]) params.length then [p] else []) := by
  unfold positionalSpec
  rw [List.length_append, List.length_singleton, List.range_succ, List.filter_append,
    List.map_append]
  congr 1
  · have hf : (List.range params.length).filter
          (fun i => positionalShaped ((params ++ [p]).getD i []) && !consumedAt (params ++ [p]) i)
        = (List.range params.length).filter
          (fun i => positionalShaped (params.getD i []) && !consumedAt params i) := by
      apply List.filter_congr
      intro i hi
      have hi' : i < params.length := List.mem_range.1 hi
      rw [List.getD_append _ _ _ _ hi', consumedAt_append _ _ _ (by omega)]
    rw [hf]
    apply List.map_congr_left
    intro i hi
    have hi' : i < params.length := List.mem_range.1 (List.mem_of_mem_filter hi)
    exact List.getD_append _ _ _ _ hi'
  · have hg : (params ++ [p]).getD params.length [] = p := by
      rw [List.getD_append_right _ _ _ _ (le_refl _)]; simp
    by_cases hc : (positionalShaped p && !consumedAt (params ++ [p]) params.length) = true
    · simp [List.filter, hg, hc]
    · simp [List.filter, hg, hc]

theorem foldl_step_args (a : Args) (params : List Str) :
    (params.foldl step (a, none)).1._args = a._args ++ positionalSpec params
    ∧ (params.foldl step (a, none)).2.isSome = consumedAt (params ++ [[]]) params.length := by
  induction params using List.reverseRecOn with
  | nil => simp [positionalSpec, consumedAt]
  | append_singleton params p ih =>
    rw [List.foldl_append, List.foldl_cons, List.foldl_nil]
    constructor
    · rw [step_args, ih.1, ih.2, positionalSpec_append, List.append_assoc,
        consumedAt_append _ _ _ (le_refl _), consumedAt_append _ _ _ (le_refl _)]
    · rw [step_pending]
      have hg : (params ++ [p] ++ [[]]).getD (params.length + 1 - 1) [] = p := by
        rw [List.append_assoc, Nat.add_sub_cancel,
          List.getD_append_right _ _ _ _ (le_refl _)]
        simp
      unfold consumedAt
      rw [List.length_append, List.length_singleton, hg]
      simp


/-! ## Short clusters -/

theorem map_charAt_range' (pre l t : Str) :
    (List.range' pre.length l.length).map (fun j => charAt (pre ++ l ++ t) j) = l := by
  induction l generalizing pre with
  | nil => simp
  | cons x l' ih =>
    have hx : charAt (pre ++ x :: (l' ++ t)) pre.length = x := by
      unfold charAt
      rw [List.getD_append_right _ _ _ _ (le_refl _)]
      simp
    have := ih (pre ++ [x])
    simp only [List.length_append, List.length_singleton, List.append_assoc,
      List.singleton_append, List.cons_append, List.nil_append] at this
    simp only [List.length_cons, List.range'_succ, List.map_cons, hx, List.append_assoc,
      List.cons_append]
    rw [this]

theorem shortFlags_cluster (body : Str) (last : Char) (flags : List Str)
    (h : '=' ∉ body ++ [last]) :
    setInsert (substr ('-' :: (body ++ [last])) (j_end ('-' :: (body ++ [last]))))
        (shortFlags ('-' :: (body ++ [last])) (j_end ('-' :: (body ++ [last]))) flags)
      = (body ++ [last]).foldl (fun fl c => setInsert [c] fl) flags := by
  have hf : find ('-' :: (body ++ [last])) '=' 0 = none := by
    have := findAux_none '=' (body ++ [last]) 1 h
    simpa [find, findAux] using this
  have hj : j_end ('-' :: (body ++ [last])) = body.length + 1 := by
    simp [j_end, hf]
  have hm := map_charAt_range' ['-'] body [last]
  simp only [List.length_singleton, List.singleton_append, List.cons_append,
    List.nil_append] at hm
  have hs : substr ('-' :: (body ++ [last])) (body.length + 1) = [last] := by
    simp [substr]
  rw [hj, hs, shortFlags, Nat.add_sub_cancel, List.foldl_append, List.foldl_cons, List.foldl_nil]
  congr 1
  conv_rhs => rw [← hm]
  rw [List.foldl_map]

theorem step_cluster (s : Args × Option Str) (c1 : Char) (cs : Str)
    (heq : '=' ∉ c1 :: cs) (hdash : c1 ≠ '-') (hdig : isdigit c1 = false) :
    step s ('-' :: c1 :: cs) =
      ({ flush s with
          _flags := (shortFlags ('-' :: c1 :: cs) (j_end ('-' :: c1 :: cs)) (flush s)._flags) },
        some (substr ('-' :: c1 :: cs) (j_end ('-' :: c1 :: cs)))) := by
  have hf : find ('-' :: c1 :: cs) '=' 0 = none := by
    have := findAux_none '=' (c1 :: cs) 1 heq
    simpa [find, findAux] using this
  have hp : tokenIsParam ('-' :: c1 :: cs) = false := by
    simp [tokenIsParam, charAt, hdig]
  have hl : (decide (('-' :: c1 :: cs).length > 1) && charAt ('-' :: c1 :: cs) 1 == '-') = false := by
    simp [charAt, hdash]
  simp only [step, hp, hf, optStart, optEnter, hl, Bool.false_eq_true, if_false]

theorem tokenize_cluster (program_name : Str) (pre post : List Str) (c1 : Char) (cs : Str)
    (heq : '=' ∉ c1 :: cs) (hdash : c1 ≠ '-') (hdig : isdigit c1 = false)
    (hnext : ∀ q rest, post = q :: rest → positionalShaped q = false) :
    Args.tokenize program_name (pre ++ ['-' :: c1 :: cs] ++ post) =
      ctorLoop (pre ++ ['-' :: c1 :: cs] ++ post) post.length (pre.length + 1)
        { Args.tokenize program_name pre with
          _flags := (c1 :: cs).foldl (fun fl c => setInsert [c] fl)
            (Args.tokenize program_name pre)._flags } := by
  have hdrop : (pre ++ ['-' :: c1 :: cs] ++ post).drop (pre.length + 1) = post := by
    apply List.drop_left'
    simp
  rw [ctorLoop_eq_runTokens _ _ _ _ (by simp; omega), hdrop, tokenize_eq_runTokens,
    tokenize_eq_runTokens]
  conv_lhs => rw [runTokens]
  rw [List.foldl_append, List.foldl_append, List.foldl_cons, List.foldl_nil,
    step_cluster _ _ _ heq hdash hdig, foldl_step_pending]
  · rw [runTokens]
    congr 3
    obtain ⟨body, last, hbl⟩ : ∃ body last, c1 :: cs = body ++ [last] :=
      ⟨(c1 :: cs).dropLast, (c1 :: cs).getLast (by simp),
        (List.dropLast_append_getLast (by simp)).symm⟩
    rw [hbl] at heq ⊢
    have := shortFlags_cluster body last (runTokens (Args.init program_name) pre)._flags heq
    rw [← this]
    rfl
  · intro q rest hq
    rw [tokenIsParam_eq_positionalShaped]
    exact hnext q rest hq

/-! ## split -/

theorem findAux_some (c : Char) (r : Str) (i e : Nat) (h : findAux c r i = some e) :
    ∃ u v, r = u ++ c :: v ∧ c ∉ u ∧ e = i + u.length := by
  induction r generalizing i with
  | nil => simp [findAux] at h
  | cons x xs ih =>
    by_cases hx : x = c
    · simp only [findAux, hx, if_true, Option.some.injEq] at h
      exact ⟨[], xs, by simp [hx], by simp, by simp [h]⟩
    · simp only [findAux, hx, if_false] at h
      obtain ⟨u, v, h1, h2, h3⟩ := ih _ h
      refine ⟨x :: u, v, by simp [h1], ?_, by simp [h3]; omega⟩
      simp [h2, Ne.symm hx]

theorem splitRef_no_comma (s : Str) (h : ',' ∉ s) : splitRef s = [s] := by
  induction s with
  | nil => rfl
  | cons x xs ih =>
    have hx : x ≠ ',' := fun e => h (by simp [e])
    have hxs : ',' ∉ xs := fun e => h (by simp [e])
    simp [splitRef, hx, ih hxs]

theorem splitRef_append (u v : Str) (h : ',' ∉ u) :
    splitRef (u ++ ',' :: v) = u :: splitRef v := by
  induction u with
  | nil => simp [splitRef]
  | cons x xs ih =>
    have hx : x ≠ ',' := fun e => h (by simp [e])
    have hxs : ',' ∉ xs := fun e => h (by simp [e])
    simp [splitRef, hx, ih hxs]

theorem splitLoop_eq (str : Str) :
    ∀ (fuel start : Nat) (acc : List Str), (str.drop start).length < fuel →
      splitLoop str fuel start acc = acc ++ splitRef (str.drop start) := by
  intro fuel
  induction fuel with
  | zero => intro start acc h; omega
  | succ fuel ih =>
    intro start acc h
    cases hf : find str ',' start with
    | none =>
      have hn : ',' ∉ str.drop start := (findAux_eq_none_iff _ _ _).1 hf
      simp only [splitLoop, hf, substr, splitRef_no_comma _ hn]
    | some e =>
      obtain ⟨u, v, h1, h2, h3⟩ := findAux_some _ _ _ _ hf
      have hu : substrN str start (e - start) = u := by
        rw [substrN, h1, h3, Nat.add_sub_cancel_left]
        exact List.take_left' rfl
      have hv : str.drop (e + 1) = v := by
        have : str.drop (e + 1) = (str.drop start).drop (u.length + 1) := by
          rw [List.drop_drop, h3]
          congr 1
        rw [this, h1]
        have e2 : u ++ ',' :: v = (u ++ [',']) ++ v := by simp
        rw [e2]
        exact List.drop_left' (by simp)
      have hlen : (str.drop (e + 1)).length < fuel := by
        rw [hv]
        rw [h1] at h
        simp at h
        omega
      simp only [splitLoop, hf, hu]
      rw [ih (e + 1) _ hlen, hv, h1, splitRef_append u v h2]
      simp

theorem split_eq_splitRef (s : Str) : split s = splitRef s := by
  rw [split, splitLoop_eq s _ 0 [] (by simp)]
  simp

theorem split_no_comma (s : Str) (h : ',' ∉ s) : split s = [s] := by
  rw [split_eq_splitRef, splitRef_no_comma s h]

theorem digitChar_isDigit : ∀ m, m < 10 → (Nat.digitChar m).isDigit = true := by decide

theorem toDigitsCore_isDigit (fuel n : Nat) (ds : List Char)
    (h : ∀ c ∈ ds, c.isDigit = true) : ∀ c ∈ Nat.toDigitsCore 10 fuel n ds, c.isDigit = true := by
  induction fuel generalizing n ds with
  | zero => simpa [Nat.toDigitsCore] using h
  | succ fuel ih =>
    have hd : (Nat.digitChar (n % 10)).isDigit = true :=
      digitChar_isDigit _ (Nat.mod_lt _ (by decide))
    have hcons : ∀ c ∈ Nat.digitChar (n % 10) :: ds, c.isDigit = true := by
      intro c hc
      rcases List.mem_cons.1 hc with hc | hc
      · rw [hc]; exact hd
      · exact h c hc
    unfold Nat.toDigitsCore
    by_cases hz : n / 10 = 0
    · simpa [hz] using hcons
    · simp only [hz, if_false]
      exact ih _ _ hcons

theorem to_string_isDigit (n : Nat) : ∀ c ∈ to_string n, c.isDigit = true :=
  toDigitsCore_isDigit _ _ [] (by simp)

theorem arg_name_no_comma (n : Nat) : ',' ∉ "arg_".toList ++ to_string n := by
  intro h
  rcases List.mem_append.1 h with h | h
  · revert h; decide
  · have := to_string_isDigit n _ h
    revert this; decide

theorem intToString_natCast (n : Nat) : intToString (n : Int) = to_string n := by
  have : ¬ ((n : Int) < 0) := by omega
  simp [intToString, this]

/-! ## Declarations -/

theorem declare_frame (a : Args) (d : Decl) :
    (a.declare d)._args = a._args ∧ (a.declare d)._flags = a._flags
      ∧ (a.declare d)._kwargs = a._kwargs
      ∧ (a.declare d)._arg_idx = a._arg_idx + (countArgs [d] : Nat) := by
  cases d <;> simp [Args.declare, Args.arg, Args.kwarg, Args.flag, countArgs]

theorem countArgs_cons (d : Decl) (ds : List Decl) :
    countArgs (d :: ds) = countArgs [d] + countArgs ds := by
  cases d <;> simp [countArgs]; omega

theorem declareAll_frame (a : Args) (ds : List Decl) :
    (a.declareAll ds)._args = a._args ∧ (a.declareAll ds)._flags = a._flags
      ∧ (a.declareAll ds)._kwargs = a._kwargs
      ∧ (a.declareAll ds)._arg_idx = a._arg_idx + (countArgs ds : Nat) := by
  induction ds generalizing a with
  | nil => simp [Args.declareAll, countArgs]
  | cons d ds ih =>
    have h1 := declare_frame a d
    have h2 := ih (a.declare d)
    simp only [Args.declareAll, List.foldl_cons] at h2 ⊢
    rw [h2.1, h2.2.1, h2.2.2.1, h2.2.2.2, h1.1, h1.2.1, h1.2.2.1, h1.2.2.2,
      countArgs_cons d ds]
    exact ⟨rfl, rfl, rfl, by push_cast; omega⟩

theorem ctor_frame (program_name : Str) (params : List Str) :
    (Args.ctor program_name params)._args = (Args.tokenize program_name params)._args
      ∧ (Args.ctor program_name params)._flags = (Args.tokenize program_name params)._flags
      ∧ (Args.ctor program_name params)._kwargs = (Args.tokenize program_name params)._kwargs
      ∧ (Args.ctor program_name params)._arg_idx
          = (Args.tokenize program_name params)._arg_idx :=
  ⟨rfl, rfl, rfl, rfl⟩

theorem runTokens_arg_idx (a : Args) (params : List Str) :
    (runTokens a params)._arg_idx = a._arg_idx := by
  have hflush : ∀ s : Args × Option Str, (flush s)._arg_idx = s.1._arg_idx := by
    intro s; rcases s with ⟨a, _ | k⟩ <;> rfl
  have hstep : ∀ (s : Args × Option Str) (p : Str), (step s p).1._arg_idx = s.1._arg_idx := by
    intro s p
    have he : ∀ b : Args, (optEnter p b)._arg_idx = b._arg_idx := by
      intro b; unfold optEnter; split <;> rfl
    unfold step
    split
    · split <;> rfl
    · split
      · simp [he, hflush]
      · simp [he, hflush]
  have hfold : ∀ (s : Args × Option Str), (params.foldl step s).1._arg_idx = s.1._arg_idx := by
    induction params with
    | nil => intro s; rfl
    | cons p rest ih => intro s; rw [List.foldl_cons, ih, hstep]
  rw [runTokens, hflush, hfold]

theorem registry_arg_idx (program_name : Str) (params : List Str) (ds : List Decl) :
    ((Args.ctor program_name params).declareAll ds)._arg_idx + 1 = (countArgs ds : Nat) := by
  rw [(declareAll_frame _ ds).2.2.2, (ctor_frame _ _).2.2.2, tokenize_eq_runTokens,
    runTokens_arg_idx]
  simp [Args.init]

theorem registry_args (program_name : Str) (params : List Str) (ds : List Decl) :
    ((Args.ctor program_name params).declareAll ds)._args
      = (Args.tokenize program_name params)._args := by
  rw [(declareAll_frame _ ds).1, (ctor_frame _ _).1]

theorem arg_entry (a : Args) (help : Str) (n : Nat) (hn : a._arg_idx + 1 = (n : Int)) :
    (a.arg help).2 =
      { type := ARG_TYPE.ARG, keys := ["arg_".toList ++ to_string n], help := help,
        value := if n < a._args.length then a._args.getD n [] else [],
        implicit_value := none, default_str := none, error := [] } := by
  unfold Args.arg
  simp only [hn, intToString_natCast, Int.toNat_ofNat, Entry.mk4,
    split_no_comma _ (arg_name_no_comma _)]
  split <;> rfl

/-! ## Lookup of the keys of an entry -/

theorem findMap_none (keys : List Str) (m : List (Str × Str))
    (h : ∀ b ∈ keys, mapFind m b = none) : Entry.findMap keys m = none := by
  induction keys with
  | nil => rfl
  | cons k rest ih =>
    have hk : mapFind m k = none := h k (by simp)
    have hr : ∀ b ∈ rest, mapFind m b = none := fun b hb => h b (by simp [hb])
    simp [Entry.findMap, hk, ih hr]

theorem findMap_first (pre post : List Str) (al v : Str) (m : List (Str × Str))
    (hpre : ∀ b ∈ pre, mapFind m b = none) (hv : mapFind m al = some v) :
    Entry.findMap (pre ++ al :: post) m = some v := by
  induction pre with
  | nil => simp [Entry.findMap, hv]
  | cons k rest ih =>
    have hk : mapFind m k = none := hpre k (by simp)
    have hr : ∀ b ∈ rest, mapFind m b = none := fun b hb => hpre b (by simp [hb])
    simp [Entry.findMap, hk, ih hr]

theorem findSet_iff (keys fl : List Str) :
    Entry.findSet keys fl = true ↔ ∃ b ∈ keys, b ∈ fl := by
  induction keys with
  | nil => simp [Entry.findSet]
  | cons k rest ih =>
    by_cases hk : k ∈ fl
    · simp [Entry.findSet, setHas, hk]
    · simp [Entry.findSet, setHas, hk, ih]

/-! ## Conversion -/

theorem get_keys_arg (k help value : Str) (iv ds : Option Str) (err : Str) :
    Entry.get_keys
        { type := ARG_TYPE.ARG, keys := [k], help := help, value := value,
          implicit_value := iv, default_str := ds, error := err } = k := by
  simp [Entry.get_keys, get_keysLoop]

theorem convert_missing {T : Type} (c : Conv T) (e : Entry) (herr : e.error = [])
    (hval : e.value = []) :
    e.convert c = Except.ok (c.zero, { e with error := missingMsg e }) := by
  simp [Entry.convert, Entry._convert, herr, hval]

theorem set_default_missing {T : Type} (c : Conv T) (e : Entry) (d : T) (herr : e.error = [])
    (hval : e.value = []) :
    e.set_default c d =
      Except.ok (d, { e with value := c.toString d, default_str := some (c.toString d) }) := by
  simp [Entry.set_default, Entry._convert, herr, hval]

theorem convert_present {T : Type} (c : Conv T) (e : Entry) (herr : e.error = [])
    (hval : e.value ≠ []) :
    e.convert c =
      match c.get e.value with
      | Except.ok v => Except.ok (v, e)
      | Except.error Exc.invalid_argument => Except.ok (c.zero, { e with error := invalidMsg e })
      | Except.error Exc.out_of_range => Except.error Exc.out_of_range := by
  simp [Entry.convert, Entry._convert, herr, hval]

theorem set_default_present {T : Type} (c : Conv T) (e : Entry) (d : T) (herr : e.error = [])
    (hval : e.value ≠ []) :
    e.set_default c d =
      match c.get e.value with
      | Except.ok v => Except.ok (v, { e with default_str := some (c.toString d) })
      | Except.error Exc.invalid_argument =>
        Except.ok (c.zero, { e with default_str := some (c.toString d), error := invalidMsg e })
      | Except.error Exc.out_of_range => Except.error Exc.out_of_range := by
  simp only [Entry.set_default, Entry._convert, herr, hval, ne_eq, not_true_eq_false, if_false]
  cases c.get e.value with
  | ok v => rfl
  | error x => cases x <;> rfl

/-! ## Sequences -/

theorem splitRef_ne_nil (s : Str) : splitRef s ≠ [] := by
  cases s with
  | nil => simp [splitRef]
  | cons c cs =>
    unfold splitRef
    split
    · simp
    · split <;> simp

theorem splitRef_length (s : Str) : (splitRef s).length = s.count ',' + 1 := by
  induction s with
  | nil => rfl
  | cons c cs ih =>
    obtain ⟨h, t, hs⟩ := List.exists_cons_of_ne_nil (splitRef_ne_nil cs)
    by_cases hc : c = ','
    · simp [splitRef, hc, ih]
    · rw [hs] at ih
      simp only [List.length_cons] at ih
      simp [splitRef, hc, hs, List.count_cons, ih]

theorem splitRef_pieces (s : Str) : ∀ p ∈ splitRef s, ',' ∉ p := by
  induction s with
  | nil => simp [splitRef]
  | cons c cs ih =>
    obtain ⟨h, t, hs⟩ := List.exists_cons_of_ne_nil (splitRef_ne_nil cs)
    by_cases hc : c = ','
    · intro p hp
      simp only [splitRef, hc, if_true, List.mem_cons] at hp
      rcases hp with hp | hp
      · simp [hp]
      · exact ih p hp
    · rw [hs] at ih
      intro p hp
      simp only [splitRef, hc, if_false, hs, List.mem_cons] at hp
      rcases hp with hp | hp
      · have := ih h (by simp)
        rw [hp]
        simp [this, Ne.symm hc]
      · exact ih p (by simp [hp])

theorem splitRef_intercalate (s : Str) : List.intercalate [','] (splitRef s) = s := by
  induction s with
  | nil => rfl
  | cons c cs ih =>
    obtain ⟨h, t, hs⟩ := List.exists_cons_of_ne_nil (splitRef_ne_nil cs)
    rw [hs] at ih
    by_cases hc : c = ','
    · simp only [splitRef, hc, if_true, hs]
      rw [← ih]
      simp [List.intercalate, List.intersperse]
    · simp only [splitRef, hc, if_false, hs]
      rw [← ih]
      cases t <;> simp [List.intercalate, List.intersperse]

theorem transform_ok {T : Type} (op : Str → Except Exc T) (ps : List Str) (vs : List T)
    (h : List.Forall₂ (fun p v => op p = Except.ok v) ps vs) :
    transform op ps = Except.ok vs := by
  induction h with
  | nil => rfl
  | cons h1 _ ih => simp [transform, h1, ih]

theorem transform_error {T : Type} (op : Str → Except Exc T) (ps : List Str) (p : Str)
    (x : Exc) (hp : p ∈ ps) (h : op p = Except.error x) :
    ∃ y, transform op ps = Except.error y := by
  induction ps with
  | nil => simp at hp
  | cons q qs ih =>
    cases hq : op q with
    | error y => exact ⟨y, by simp [transform, hq]⟩
    | ok v =>
      have hmem : p ∈ qs := by
        rcases List.mem_cons.1 hp with e | e
        · rw [e, hq] at h; cases h
        · exact e
      obtain ⟨y, hy⟩ := ih hmem
      exact ⟨y, by simp [transform, hq, hy]⟩

theorem transform_length {T : Type} (op : Str → Except Exc T) (ps : List Str) (vs : List T)
    (h : transform op ps = Except.ok vs) :
    List.Forall₂ (fun p v => op p = Except.ok v) ps vs := by
  induction ps generalizing vs with
  | nil =>
    simp only [transform, Except.ok.injEq] at h
    rw [← h]; exact List.Forall₂.nil
  | cons q qs ih =>
    cases hq : op q with
    | error y => simp [transform, hq] at h
    | ok v =>
      cases ht : transform op qs with
      | error y => simp [transform, hq, ht] at h
      | ok ws =>
        simp only [transform, hq, ht, Except.ok.injEq] at h
        rw [← h]
        exact List.Forall₂.cons hq (ih ws ht)

/-! ## validate -/

theorem scanErrors_append (xs ys : List Entry) :
    scanErrors (xs ++ ys) =
      match scanErrors xs with
      | some msg => some msg
      | none => scanErrors ys := by
  induction xs with
  | nil => rfl
  | cons x xs ih =>
    by_cases hx : x.error = []
    · simp [scanErrors, hx, ih]
    · simp [scanErrors, hx]

theorem scanErrors_eq_none_iff (xs : List Entry) :
    scanErrors xs = none ↔ ∀ e ∈ xs, e.error = [] := by
  induction xs with
  | nil => simp [scanErrors]
  | cons x xs ih =>
    by_cases hx : x.error = []
    · simp [scanErrors, hx, ih]
    · simp [scanErrors, hx]

theorem scanErrors_first (pre post : List Entry) (e : Entry)
    (hpre : ∀ x ∈ pre, x.error = []) (he : e.error ≠ []) :
    scanErrors (pre ++ e :: post) = some e.error := by
  rw [scanErrors_append, (scanErrors_eq_none_iff pre).2 hpre]
  simp [scanErrors, he]

theorem validate_eq (a : Args) :
    a.validate =
      if a._help then ValidateResult.helpExit
      else
        match scanErrors (a._arg_options ++ a._options) with
        | some msg => ValidateResult.errorExit msg
        | none => ValidateResult.returned := by
  rw [Args.validate, scanErrors_append]
  cases scanErrors a._arg_options <;> rfl

theorem declareAll_help (a : Args) (ds : List Decl) : (a.declareAll ds)._help = a._help := by
  induction ds generalizing a with
  | nil => rfl
  | cons d ds ih =>
    simp only [Args.declareAll, List.foldl_cons] at ih ⊢
    rw [ih]
    cases d <;> rfl

theorem ctor_help (program_name : Str) (params : List Str) :
    (Args.ctor program_name params)._help
      = setHas (Args.tokenize program_name params)._flags "help".toList := by
  have hs : split "help".toList = ["help".toList] := by decide
  show Entry.findSet (split "help".toList) (Args.tokenize program_name params)._flags = _
  rw [hs, Entry.findSet, Entry.findSet]
  cases setHas (Args.tokenize program_name params)._flags "help".toList <;> rfl

theorem registry_help (program_name : Str) (params : List Str) (ds : List Decl) :
    ((Args.ctor program_name params).declareAll ds)._help
      = setHas (Args.tokenize program_name params)._flags "help".toList := by
  rw [declareAll_help, ctor_help]

/-! ## Characters -/

theorem isspace_of_isdigit (c : Char) (h : isdigit c = true) : isspace c = false := by
  cases hs : isspace c with
  | false => rfl
  | true =>
    simp only [isspace, Bool.or_eq_true, decide_eq_true_eq] at hs
    rcases hs with ((((hs | hs) | hs) | hs) | hs) | hs <;> (rw [hs] at h; revert h; decide)

theorem signSplit_of_digit (d : Char) (rest : Str) (h : isdigit d = true) :
    (match d :: rest with
     | '-' :: r => (true, r)
     | '+' :: r => (false, r)
     | r => (false, r)) = (false, d :: rest) := by
  split
  · next r heq =>
    have : d = '-' := (List.cons.inj heq).1
    rw [this] at h; exact absurd h (by decide)
  · next r heq =>
    have : d = '+' := (List.cons.inj heq).1
    rw [this] at h; exact absurd h (by decide)
  · rfl

theorem parseDecimal_digits (ds : Str) (hne : ds ≠ []) (hd : ∀ c ∈ ds, isdigit c = true) :
    parseDecimal ds = some (false, decimalValue ds) := by
  obtain ⟨d, rest, rfl⟩ := List.exists_cons_of_ne_nil hne
  have hd0 : isdigit d = true := hd d (by simp)
  have hsp : isspace d = false := isspace_of_isdigit d hd0
  have hdrop : (d :: rest).dropWhile isspace = d :: rest := by
    simp [List.dropWhile, hsp]
  have htake : (d :: rest).takeWhile isdigit = d :: rest :=
    List.takeWhile_eq_self_iff.2 hd
  unfold parseDecimal
  rw [hdrop, signSplit_of_digit d rest hd0]
  simp only [htake]
  simp [decimalValue]

theorem parseHex_prefixed (hs : Str) (hne : hs ≠ []) (hx : ∀ c ∈ hs, isxdigit c = true) :
    parseHex ('0' :: 'x' :: hs) = some (false, hexValue hs) := by
  obtain ⟨h, t, rfl⟩ := List.exists_cons_of_ne_nil hne
  have hh : isxdigit h = true := hx h (by simp)
  have hdrop : ('0' :: 'x' :: h :: t).dropWhile isspace = '0' :: 'x' :: h :: t := by
    have : isspace '0' = false := by decide
    simp [List.dropWhile, this]
  have htake : (h :: t).takeWhile isxdigit = h :: t :=
    List.takeWhile_eq_self_iff.2 hx
  unfold parseHex
  rw [hdrop, signSplit_of_digit '0' _ (by decide)]
  simp only [hh, Bool.and_true, beq_self_eq_true, Bool.true_or, if_true, htake]
  simp

theorem get_char_decimal (s : Str) (hlen : s.length ≥ 2) (hd : ∀ c ∈ s, isdigit c = true)
    (hr : decimalValue s ≤ 2 ^ 31 - 1) :
    get_char s = Except.ok (Char.ofNat (decimalValue s % 256)) := by
  have hne : s ≠ [] := by intro h; rw [h] at hlen; simp at hlen
  have hp := parseDecimal_digits s hne hd
  have hnot : substrN s 0 2 ≠ ['0', 'x'] := by
    intro h
    match s, hlen, hd, h with
    | a :: b :: t, _, hd, h =>
      simp [substrN] at h
      have := hd b (by simp)
      rw [h.2] at this
      exact absurd this (by decide)
  have hst : stoi s = Except.ok (decimalValue s : Int) := by
    unfold stoi
    rw [hp]
    have h1 : signedValue (false, decimalValue s) = (decimalValue s : Int) := by
      simp [signedValue]
    simp only [h1]
    rw [if_pos]
    constructor
    · have : (0 : Int) ≤ (decimalValue s : Int) := Int.ofNat_nonneg _
      omega
    · have : ((decimalValue s : Nat) : Int) ≤ ((2 ^ 31 - 1 : Nat) : Int) := Int.ofNat_le.2 hr
      simpa using this
  have hgt : s.length > 1 := by omega
  unfold get_char
  rw [if_neg hne, if_pos hgt, if_neg hnot, hst]
  simp only
  congr 2

theorem get_char_hex (hs : Str) (hne : hs ≠ []) (hx : ∀ c ∈ hs, isxdigit c = true)
    (hr : hexValue hs ≤ 2 ^ 64 - 1) :
    get_char ('0' :: 'x' :: hs) = Except.ok (Char.ofNat (hexValue hs % 256)) := by
  have hst : stoul16 ('0' :: 'x' :: hs) = Except.ok (hexValue hs) := by
    unfold stoul16
    rw [parseHex_prefixed hs hne hx]
    simp only [if_pos hr]
    rfl
  unfold get_char
  rw [if_neg (by simp), if_pos (by simp), if_pos (by simp [substrN]), hst]

theorem get_char_prefixed (t : Str) :
    get_char ('0' :: 'x' :: t) =
      match stoul16 ('0' :: 'x' :: t) with
      | Except.ok n => Except.ok (Char.ofNat (n % 256))
      | Except.error e => Except.error e := by
  unfold get_char
  rw [if_neg (by simp), if_pos (by simp), if_pos (by simp [substrN])]

theorem get_char_plain (s : Str) (hlen : s.length ≥ 2) (hnot : ∀ t, s ≠ '0' :: 'x' :: t) :
    get_char s =
      match stoi s with
      | Except.ok n => Except.ok (Char.ofNat (n % 256).toNat)
      | Except.error e => Except.error e := by
  have hne : s ≠ [] := by intro h; rw [h] at hlen; simp at hlen
  have hsub : substrN s 0 2 ≠ ['0', 'x'] := by
    intro h
    match s, hlen, hnot, h with
    | a :: b :: t, _, hnot, h =>
      simp [substrN] at h
      exact hnot t (by rw [h.1, h.2])
  unfold get_char
  rw [if_neg hne, if_pos (by omega), if_neg hsub]

/-! ## Optional values -/

theorem missingMsg_ne_nil (e : Entry) : missingMsg e ≠ [] := by
  simp [missingMsg]

theorem scanErrors_some_ne_nil (xs : List Entry) (msg : Str) (h : scanErrors xs = some msg) :
    msg ≠ [] := by
  induction xs with
  | nil => simp [scanErrors] at h
  | cons x xs ih =>
    by_cases hx : x.error = []
    · simp only [scanErrors, hx, ne_eq, not_true_eq_false, if_false] at h
      exact ih h
    · simp only [scanErrors, hx, ne_eq, not_false_eq_true, if_true, Option.some.injEq] at h
      rw [← h]; exact hx

theorem validate_of_error (a : Args) (e : Entry) (hmem : e ∈ a._arg_options ++ a._options)
    (he : e.error ≠ []) (hhelp : a._help = false) :
    ∃ msg, a.validate = ValidateResult.errorExit msg ∧ msg ≠ [] := by
  rw [validate_eq, hhelp]
  simp only [Bool.false_eq_true, if_false]
  cases hsc : scanErrors (a._arg_options ++ a._options) with
  | none => exact absurd ((scanErrors_eq_none_iff _).1 hsc e hmem) he
  | some msg => exact ⟨msg, rfl, scanErrors_some_ne_nil _ msg hsc⟩

theorem validate_of_help (a : Args) (hhelp : a._help = true) :
    a.validate = ValidateResult.helpExit := by
  simp [Args.validate, hhelp]

/-! ## Options with and without a value -/

theorem step_bare (s : Args × Option Str) (tok : Str) (hp : tokenIsParam tok = false)
    (hf : find tok '=' 0 = none) :
    step s tok = (optEnter tok (flush s), some (substr tok (optStart tok))) := by
  simp only [step, hp, hf, Bool.false_eq_true, if_false]

theorem drop_after (pre mid post : List Str) :
    (pre ++ mid ++ post).drop (pre.length + mid.length) = post :=
  List.drop_left' (by simp)

theorem tokenize_bare_option (program_name : Str) (pre post : List Str) (tok : Str)
    (hp : tokenIsParam tok = false) (hf : find tok '=' 0 = none)
    (hnext : ∀ q rest, post = q :: rest → positionalShaped q = false) :
    Args.tokenize program_name (pre ++ [tok] ++ post) =
      ctorLoop (pre ++ [tok] ++ post) post.length (pre.length + 1)
        { optEnter tok (Args.tokenize program_name pre) with
          _flags := setInsert (substr tok (optStart tok))
            (optEnter tok (Args.tokenize program_name pre))._flags } := by
  have hdrop : (pre ++ [tok] ++ post).drop (pre.length + 1) = post :=
    drop_after pre [tok] post
  rw [ctorLoop_eq_runTokens _ _ _ _ (by simp; omega), hdrop,
    tokenize_eq_runTokens, tokenize_eq_runTokens]
  conv_lhs => rw [runTokens]
  rw [List.foldl_append, List.foldl_append, List.foldl_cons, List.foldl_nil,
    step_bare _ _ hp hf, foldl_step_pending]
  · rfl
  · intro q rest hq
    rw [tokenIsParam_eq_positionalShaped]
    exact hnext q rest hq

theorem tokenize_valued_option (program_name : Str) (pre post : List Str) (tok p : Str)
    (hp : tokenIsParam tok = false) (hf : find tok '=' 0 = none)
    (hv : tokenIsParam p = true) :
    Args.tokenize program_name (pre ++ [tok, p] ++ post) =
      ctorLoop (pre ++ [tok, p] ++ post) post.length (pre.length + 2)
        { optEnter tok (Args.tokenize program_name pre) with
          _kwargs := mapAssign (substr tok (optStart tok)) p
            (optEnter tok (Args.tokenize program_name pre))._kwargs } := by
  have hdrop : (pre ++ [tok, p] ++ post).drop (pre.length + 2) = post :=
    drop_after pre [tok, p] post
  rw [ctorLoop_eq_runTokens _ _ _ _ (by simp; omega), hdrop,
    tokenize_eq_runTokens, tokenize_eq_runTokens]
  conv_lhs => rw [runTokens]
  rw [List.foldl_append, List.foldl_append, List.foldl_cons, List.foldl_cons, List.foldl_nil,
    step_bare _ _ hp hf, step_value _ _ _ hv]
  rfl

theorem mem_setInsert_self (x : Str) (fl : List Str) : x ∈ setInsert x fl := by
  unfold setInsert
  split
  · assumption
  · simp

theorem mem_setInsert_of_mem (x y : Str) (fl : List Str) (h : y ∈ fl) :
    y ∈ setInsert x fl := by
  unfold setInsert
  split
  · exact h
  · simp [h]

theorem mem_shortFlags_of_mem (p : Str) (n : Nat) (y : Str) (fl : List Str) (h : y ∈ fl) :
    y ∈ shortFlags p n fl := by
  unfold shortFlags
  generalize List.range' 1 (n - 1) = js
  induction js generalizing fl with
  | nil => exact h
  | cons j js ih => exact ih _ (mem_setInsert_of_mem _ _ _ h)

theorem mem_flush_of_mem (s : Args × Option Str) (y : Str) (h : y ∈ s.1._flags) :
    y ∈ (flush s)._flags := by
  rcases s with ⟨a, _ | k⟩
  · exact h
  · exact mem_setInsert_of_mem _ _ _ h

theorem mem_optEnter_of_mem (p : Str) (a : Args) (y : Str) (h : y ∈ a._flags) :
    y ∈ (optEnter p a)._flags := by
  unfold optEnter
  split
  · exact h
  · exact mem_shortFlags_of_mem _ _ _ _ h

theorem mem_step_of_mem (s : Args × Option Str) (p y : Str) (h : y ∈ s.1._flags) :
    y ∈ (step s p).1._flags := by
  unfold step
  split
  · split <;> exact h
  · split
    · exact mem_optEnter_of_mem _ _ _ (mem_flush_of_mem _ _ h)
    · exact mem_optEnter_of_mem _ _ _ (mem_flush_of_mem _ _ h)

theorem mem_runTokens_of_mem (a : Args) (params : List Str) (y : Str) (h : y ∈ a._flags) :
    y ∈ (runTokens a params)._flags := by
  have hfold : ∀ (s : Args × Option Str), y ∈ s.1._flags →
      y ∈ (flush (params.foldl step s))._flags := by
    induction params with
    | nil => intro s hs; exact mem_flush_of_mem _ _ hs
    | cons p rest ih => intro s hs; rw [List.foldl_cons]; exact ih _ (mem_step_of_mem _ _ _ hs)
  exact hfold (a, none) h

theorem runTokens_entries (a : Args) (params : List Str) :
    (runTokens a params)._options = a._options
      ∧ (runTokens a params)._arg_options = a._arg_options := by
  have hflush : ∀ s : Args × Option Str,
      (flush s)._options = s.1._options ∧ (flush s)._arg_options = s.1._arg_options := by
    intro s; rcases s with ⟨a, _ | k⟩ <;> exact ⟨rfl, rfl⟩
  have hstep : ∀ (s : Args × Option Str) (p : Str),
      (step s p).1._options = s.1._options
        ∧ (step s p).1._arg_options = s.1._arg_options := by
    intro s p
    have he : ∀ b : Args, (optEnter p b)._options = b._options
        ∧ (optEnter p b)._arg_options = b._arg_options := by
      intro b; unfold optEnter; split <;> exact ⟨rfl, rfl⟩
    unfold step
    split
    · split <;> exact ⟨rfl, rfl⟩
    · split
      · exact ⟨(he _).1.trans (hflush s).1, (he _).2.trans (hflush s).2⟩
      · exact ⟨(he _).1.trans (hflush s).1, (he _).2.trans (hflush s).2⟩
  have hfold : ∀ (s : Args × Option Str),
      (params.foldl step s).1._options = s.1._options
        ∧ (params.foldl step s).1._arg_options = s.1._arg_options := by
    induction params with
    | nil => intro s; exact ⟨rfl, rfl⟩
    | cons p rest ih =>
      intro s
      rw [List.foldl_cons]
      exact ⟨(ih _).1.trans (hstep s p).1, (ih _).2.trans (hstep s p).2⟩
  rw [runTokens]
  exact ⟨(hflush _).1.trans (hfold _).1, (hflush _).2.trans (hfold _).2⟩

theorem declare_no_errors (a : Args) (d : Decl)
    (h : ∀ e ∈ a._arg_options ++ a._options, e.error = []) :
    ∀ e ∈ (a.declare d)._arg_options ++ (a.declare d)._options, e.error = [] := by
  have hk : ∀ key help iv, (a.kwarg key help iv).2.error = [] := by
    intro key help iv
    unfold Args.kwarg
    simp only [Entry.mk4]
    split
    · rfl
    · split
      · split <;> rfl
      · rfl
  have ha : ∀ help, (a.arg help).2.error = [] := by
    intro help
    unfold Args.arg
    simp only [Entry.mk4]
    split <;> rfl
  intro e he
  cases d with
  | arg help =>
    have : e ∈ a._arg_options ++ a._options ∨ e = (a.arg help).2 := by
      simp only [Args.declare, Args.arg, List.mem_append, List.mem_singleton] at he ⊢
      tauto
    rcases this with h1 | h1
    · exact h e h1
    · rw [h1]; exact ha help
  | kwarg key help iv =>
    have : e ∈ a._arg_options ++ a._options ∨ e = (a.kwarg key help iv).2 := by
      simp only [Args.declare, Args.kwarg, List.mem_append, List.mem_singleton] at he ⊢
      tauto
    rcases this with h1 | h1
    · exact h e h1
    · rw [h1]; exact hk key help iv
  | flag key help =>
    simp only [Args.declare, Args.flag, Entry.mk4, List.mem_append, List.mem_singleton] at he
    rcases he with h1 | h1 | h1
    · exact h e (by simp [h1])
    · exact h e (by simp [h1])
    · rw [h1]

theorem declareAll_no_errors (a : Args) (ds : List Decl)
    (h : ∀ e ∈ a._arg_options ++ a._options, e.error = []) :
    ∀ e ∈ (a.declareAll ds)._arg_options ++ (a.declareAll ds)._options, e.error = [] := by
  induction ds generalizing a with
  | nil => exact h
  | cons d ds ih =>
    simp only [Args.declareAll, List.foldl_cons] at ih ⊢
    exact ih _ (declare_no_errors a d h)

theorem ctor_no_errors (program_name : Str) (params : List Str) :
    ∀ e ∈ (Args.ctor program_name params)._arg_options
        ++ (Args.ctor program_name params)._options, e.error = [] := by
  have h := runTokens_entries (Args.init program_name) params
  rw [← tokenize_eq_runTokens] at h
  intro e he
  simp only [Args.ctor, Args.flag, Entry.mk4, h.1, h.2, Args.init, List.nil_append,
    List.mem_singleton] at he
  rw [he]

theorem registry_no_errors (program_name : Str) (params : List Str) (ds : List Decl) :
    ∀ e ∈ ((Args.ctor program_name params).declareAll ds)._arg_options
        ++ ((Args.ctor program_name params).declareAll ds)._options, e.error = [] :=
  declareAll_no_errors _ ds (ctor_no_errors program_name params)

theorem optEnter_eq (tok : Str) (a : Args) :
    optEnter tok a = { a with _flags := (optEnter tok a)._flags } := by
  unfold optEnter
  split <;> rfl

theorem find_none_of_not_mem (tok : Str) (h : '=' ∉ tok) : find tok '=' 0 = none := by
  have := findAux_none '=' tok 0 h
  simpa [find] using this

theorem optEnter_single (tok : Str) (a : Args) (heq : '=' ∉ tok)
    (h : tok.length ≤ 2 ∨ charAt tok 1 = '-') : optEnter tok a = a := by
  unfold optEnter
  split
  · rfl
  · next hl =>
    have hj : j_end tok - 1 = 0 := by
      rcases h with h | h
      · simp only [j_end, find_none_of_not_mem tok heq]
        omega
      · have h2 : ¬ tok.length > 1 := by
          intro hlen
          exact hl (by simp [hlen, h])
        simp only [j_end, find_none_of_not_mem tok heq]
        omega
    simp [shortFlags, hj]

theorem kwarg_entry_unmatched (a : Args) (name help : Str) (hcomma : ',' ∉ name)
    (hk : mapFind a._kwargs name = none) :
    (a.kwarg name help none).2 =
      { type := ARG_TYPE.KWARG, keys := [name], help := help, value := [],
        implicit_value := none, default_str := none, error := [] } := by
  have hfm : Entry.findMap [name] a._kwargs = none := by
    simp [Entry.findMap, hk]
  unfold Args.kwarg
  simp only [Entry.mk4, split_no_comma name hcomma, hfm]

theorem get_keys_long (name help value : Str) (iv ds : Option Str) (err : Str)
    (hlen : name.length ≥ 2) :
    Entry.get_keys
        { type := ARG_TYPE.KWARG, keys := [name], help := help, value := value,
          implicit_value := iv, default_str := ds, error := err }
      = '-' :: '-' :: name := by
  have h : name.length > 1 := by omega
  simp [Entry.get_keys, get_keysLoop, h]

theorem kwargAs_missing {T : Type} (c : Conv T) (a : Args) (name help : Str)
    (hcomma : ',' ∉ name) (hlen : name.length ≥ 2) (hk : mapFind a._kwargs name = none) :
    Args.kwargAs c a name help none none =
      Except.ok (c.zero,
        { a with _options := a._options ++
            [{ type := ARG_TYPE.KWARG, keys := [name], help := help, value := [],
               implicit_value := none, default_str := none,
               error := "Argument missing: ".toList ++ ('-' :: '-' :: name) }] }) := by
  have he := kwarg_entry_unmatched a name help hcomma hk
  have h1 : (a.kwarg name help none).1._options = a._options ++ [(a.kwarg name help none).2] :=
    rfl
  have hc : Entry.convert c
      { type := ARG_TYPE.KWARG, keys := [name], help := help, value := [],
        implicit_value := none, default_str := none, error := [] }
      = Except.ok (c.zero,
          { type := ARG_TYPE.KWARG, keys := [name], help := help, value := [],
            implicit_value := none, default_str := none,
            error := "Argument missing: ".toList ++ ('-' :: '-' :: name) }) := by
    rw [convert_missing c _ rfl rfl, missingMsg, get_keys_long name help [] none none [] hlen]
  unfold Args.kwargAs
  rw [h1, he]
  simp only [Entry.request, hc, List.dropLast_concat]
  rfl

/-! ## Value-carrying occurrences -/

theorem takeWhile_ne_append (u v : Str) (h : '=' ∉ u) :
    (u ++ '=' :: v).takeWhile (fun c => c != '=') = u := by
  induction u with
  | nil => simp [List.takeWhile]
  | cons x xs ih =>
    have hx : x ≠ '=' := fun e => h (by simp [e])
    have hxs : '=' ∉ xs := fun e => h (by simp [e])
    simp [List.takeWhile_cons, hx, ih hxs]

theorem dropWhile_ne_append (u v : Str) (h : '=' ∉ u) :
    (u ++ '=' :: v).dropWhile (fun c => c != '=') = '=' :: v := by
  induction u with
  | nil => simp [List.dropWhile]
  | cons x xs ih =>
    have hx : x ≠ '=' := fun e => h (by simp [e])
    have hxs : '=' ∉ xs := fun e => h (by simp [e])
    simp [List.dropWhile_cons, hx, ih hxs]

theorem takeWhile_ne_self (u : Str) (h : '=' ∉ u) :
    u.takeWhile (fun c => c != '=') = u := by
  apply List.takeWhile_eq_self_iff.2
  intro c hc
  have : c ≠ '=' := fun e => h (e ▸ hc)
  simp [this]

theorem option_shape (p : Str) (hp : tokenIsParam p = false) : ∃ rest, p = '-' :: rest := by
  cases p with
  | nil => simp [tokenIsParam, charAt] at hp
  | cons c rest =>
    simp only [tokenIsParam, charAt, List.getD_cons_zero, Bool.or_eq_false_iff, bne_eq_false_iff_eq] at hp
    exact ⟨rest, by rw [hp.1]⟩

theorem long_names (r : Str) :
    optStart ('-' :: '-' :: r) = 2
    ∧ (∀ e, find ('-' :: '-' :: r) '=' 0 = some e →
        substrN ('-' :: '-' :: r) 2 (e - 2) = optionName ('-' :: '-' :: r)
        ∧ substr ('-' :: '-' :: r) (e + 1) = optionValue ('-' :: '-' :: r))
    ∧ (find ('-' :: '-' :: r) '=' 0 = none →
        substr ('-' :: '-' :: r) 2 = optionName ('-' :: '-' :: r)) := by
  refine ⟨by simp [optStart, charAt], ?_, ?_⟩
  · intro e he
    have he' : findAux '=' r 2 = some e := by simpa [find, findAux] using he
    obtain ⟨u, v, h1, h2, h3⟩ := findAux_some _ _ _ _ he'
    subst h1
    subst h3
    constructor
    · simp only [optionName, takeWhile_ne_append u v h2, substrN]
      simp
    · have hd : ('-' :: '-' :: (u ++ '=' :: v)).dropWhile (fun c => c != '=') = '=' :: v := by
        have := dropWhile_ne_append ('-' :: '-' :: u) v (by simp [h2])
        simpa using this
      rw [optionValue, hd, substr]
      have e2 : ('-' :: '-' :: (u ++ '=' :: v)) = ('-' :: '-' :: (u ++ ['='])) ++ v := by simp
      rw [e2]
      simp only [List.drop_one, List.tail_cons]
      exact List.drop_left' (by simp; omega)
  · intro hn
    have hn' : findAux '=' r 2 = none := by simpa [find, findAux] using hn
    have hr : '=' ∉ r := (findAux_eq_none_iff _ _ _).1 hn'
    simp [optionName, takeWhile_ne_self r hr, substr]

theorem optionName_short (rest : Str) (h : ∀ r, rest ≠ '-' :: r) :
    optionName ('-' :: rest) =
      ((('-' :: rest).takeWhile (fun c => c != '=')).getLast?).toList := by
  unfold optionName
  split
  · next r heq =>
    exact absurd (List.cons.inj heq).2 (h _)
  · rfl

theorem short_names (rest : Str) (h : ∀ r, rest ≠ '-' :: r) :
    optStart ('-' :: rest) = j_end ('-' :: rest)
    ∧ (∀ e, find ('-' :: rest) '=' 0 = some e →
        substrN ('-' :: rest) (j_end ('-' :: rest)) (e - j_end ('-' :: rest))
            = optionName ('-' :: rest)
        ∧ substr ('-' :: rest) (e + 1) = optionValue ('-' :: rest))
    ∧ (find ('-' :: rest) '=' 0 = none →
        substr ('-' :: rest) (j_end ('-' :: rest)) = optionName ('-' :: rest)) := by
  have hl : ¬ (decide (('-' :: rest).length > 1) && charAt ('-' :: rest) 1 == '-') = true := by
    cases rest with
    | nil => simp
    | cons c r =>
      have hc : c ≠ '-' := fun e => h r (by rw [e])
      simp [charAt, hc]
  refine ⟨by rw [optStart, if_neg hl], ?_, ?_⟩
  · intro e he
    have he' : findAux '=' rest 1 = some e := by simpa [find, findAux] using he
    obtain ⟨u, v, h1, h2, h3⟩ := findAux_some _ _ _ _ he'
    subst h1
    subst h3
    have hj : j_end ('-' :: (u ++ '=' :: v)) = u.length := by
      simp only [j_end, he]
      have hle : 1 + u.length ≤ ('-' :: (u ++ '=' :: v)).length := by simp; omega
      rw [Nat.min_eq_right hle]
      omega
    obtain ⟨w, l, hwl⟩ : ∃ w l, '-' :: u = w ++ [l] :=
      ⟨('-' :: u).dropLast, ('-' :: u).getLast (by simp),
        (List.dropLast_append_getLast (by simp)).symm⟩
    have hwlen : w.length = u.length := by
      have := congrArg List.length hwl
      simp at this
      omega
    have hp : '-' :: (u ++ '=' :: v) = w ++ l :: '=' :: v := by
      have : '-' :: (u ++ '=' :: v) = ('-' :: u) ++ '=' :: v := by simp
      rw [this, hwl]; simp
    have htw : ('-' :: (u ++ '=' :: v)).takeWhile (fun c => c != '=') = w ++ [l] := by
      have := takeWhile_ne_append ('-' :: u) v (by simp [h2])
      rw [← hwl]; simpa using this
    constructor
    · rw [optionName_short _ h, htw, hj, substrN, hp, ← hwlen, List.drop_left]
      simp
    · have hd : ('-' :: (u ++ '=' :: v)).dropWhile (fun c => c != '=') = '=' :: v := by
        have := dropWhile_ne_append ('-' :: u) v (by simp [h2])
        simpa using this
      rw [optionValue, hd, substr]
      have e2 : ('-' :: (u ++ '=' :: v)) = ('-' :: (u ++ ['='])) ++ v := by simp
      rw [e2]
      simp only [List.drop_one, List.tail_cons]
      exact List.drop_left' (by simp; omega)
  · intro hn
    have hn' : findAux '=' rest 1 = none := by simpa [find, findAux] using hn
    have hr : '=' ∉ rest := (findAux_eq_none_iff _ _ _).1 hn'
    have hj : j_end ('-' :: rest) = rest.length := by
      simp [j_end, hn]
    obtain ⟨w, l, hwl⟩ : ∃ w l, '-' :: rest = w ++ [l] :=
      ⟨('-' :: rest).dropLast, ('-' :: rest).getLast (by simp),
        (List.dropLast_append_getLast (by simp)).symm⟩
    have hwlen : w.length = rest.length := by
      have := congrArg List.length hwl
      simp at this
      omega
    have htw : ('-' :: rest).takeWhile (fun c => c != '=') = w ++ [l] := by
      rw [← hwl]
      exact takeWhile_ne_self _ (by simp [hr])
    rw [optionName_short _ h, htw, hj, substr, hwl, ← hwlen, List.drop_left]
    simp

theorem option_names (p : Str) (hp : tokenIsParam p = false) :
    (∀ e, find p '=' 0 = some e →
        substrN p (optStart p) (e - optStart p) = optionName p
        ∧ substr p (e + 1) = optionValue p)
    ∧ (find p '=' 0 = none → substr p (optStart p) = optionName p) := by
  obtain ⟨rest, rfl⟩ := option_shape p hp
  by_cases h : ∃ r, rest = '-' :: r
  · obtain ⟨r, rfl⟩ := h
    have := long_names r
    rw [this.1]
    exact this.2
  · have h' : ∀ r, rest ≠ '-' :: r := fun r e => h ⟨r, e⟩
    have := short_names rest h'
    rw [this.1]
    exact this.2

theorem find_eq_none_iff (p : Str) : find p '=' 0 = none ↔ '=' ∉ p := by
  have := findAux_eq_none_iff '=' p 0
  simpa [find] using this

theorem flush_kwargs (s : Args × Option Str) : (flush s)._kwargs = s.1._kwargs := by
  rcases s with ⟨a, _ | k⟩ <;> rfl

theorem optEnter_kwargs (p : Str) (a : Args) : (optEnter p a)._kwargs = a._kwargs := by
  unfold optEnter; split <;> rfl

theorem step_occurrences (s : Args × Option Str) (p : Str) (rest : List Str) :
    (occurrencesFrom s.2 (p :: rest)).foldl (fun m o => mapAssign o.1 o.2 m) s.1._kwargs
      = (occurrencesFrom (step s p).2 rest).foldl (fun m o => mapAssign o.1 o.2 m)
          (step s p).1._kwargs := by
  by_cases hp : tokenIsParam p = true
  · have hps : positionalShaped p = true := by rw [← tokenIsParam_eq_positionalShaped]; exact hp
    rcases s with ⟨a, _ | k⟩
    · simp only [occurrencesFrom, hps, if_true, step, hp]
    · simp only [occurrencesFrom, hps, if_true, step, hp, List.foldl_cons]
  · have hp' : tokenIsParam p = false := by simpa using hp
    have hps : positionalShaped p = false := by
      rw [← tokenIsParam_eq_positionalShaped]; exact hp'
    have hn := option_names p hp'
    cases hf : find p '=' 0 with
    | none =>
      have hmem : '=' ∉ p := (find_eq_none_iff p).1 hf
      simp only [occurrencesFrom, hps, Bool.false_eq_true, if_false, hmem, step, hp', hf,
        optEnter_kwargs, flush_kwargs, hn.2 hf]
    | some e =>
      have hmem : '=' ∈ p := by
        by_contra hc
        rw [(find_eq_none_iff p).2 hc] at hf
        cases hf
      simp only [occurrencesFrom, hps, Bool.false_eq_true, if_false, hmem, if_true, step, hp',
        hf, optEnter_kwargs, flush_kwargs, (hn.1 e hf).1, (hn.1 e hf).2, List.foldl_cons]

theorem foldl_step_kwargs (params : List Str) :
    ∀ s : Args × Option Str,
      (flush (params.foldl step s))._kwargs
        = (occurrencesFrom s.2 params).foldl (fun m o => mapAssign o.1 o.2 m) s.1._kwargs := by
  induction params with
  | nil => intro s; rw [List.foldl_nil, flush_kwargs]; rfl
  | cons p rest ih =>
    intro s
    rw [List.foldl_cons, ih, step_occurrences]

theorem tokenize_kwargs (program_name : Str) (params : List Str) :
    (Args.tokenize program_name params)._kwargs
      = (valueOccurrences params).foldl (fun m o => mapAssign o.1 o.2 m) [] := by
  rw [tokenize_eq_runTokens, runTokens, foldl_step_kwargs]
  rfl

theorem lookup_filter_ne (m : List (Str × Str)) (k k' : Str) (h : k' ≠ k) :
    List.lookup k' (m.filter (fun p => p.1 != k)) = List.lookup k' m := by
  induction m with
  | nil => rfl
  | cons x xs ih =>
    obtain ⟨a, b⟩ := x
    by_cases ha : a = k
    · have hf : ((a, b) :: xs).filter (fun p => p.1 != k) = xs.filter (fun p => p.1 != k) := by
        simp [List.filter_cons, ha]
      have hk : (k' == a) = false := by rw [ha]; simpa using h
      rw [hf, ih, List.lookup_cons, hk]
    · have hf : ((a, b) :: xs).filter (fun p => p.1 != k)
          = (a, b) :: xs.filter (fun p => p.1 != k) := by
        simp [List.filter_cons, ha]
      rw [hf, List.lookup_cons, List.lookup_cons, ih]

theorem mapFind_assign_self (k v : Str) (m : List (Str × Str)) :
    mapFind (mapAssign k v m) k = some v := by
  simp [mapFind, mapAssign, List.lookup]

theorem mapFind_assign_ne (k v k' : Str) (m : List (Str × Str)) (h : k' ≠ k) :
    mapFind (mapAssign k v m) k' = mapFind m k' := by
  have hk : (k' == k) = false := by simpa using h
  simp only [mapFind, mapAssign, List.lookup, hk]
  exact lookup_filter_ne m k k' h

theorem mapFind_foldl_other (after : List (Str × Str)) (m : List (Str × Str)) (name : Str)
    (h : ∀ o ∈ after, o.1 ≠ name) :
    mapFind (after.foldl (fun m o => mapAssign o.1 o.2 m) m) name = mapFind m name := by
  induction after generalizing m with
  | nil => rfl
  | cons o os ih =>
    rw [List.foldl_cons, ih _ (fun x hx => h x (by simp [hx])),
      mapFind_assign_ne _ _ _ _ (fun e => h o (by simp) e.symm)]

theorem mapFind_foldl_last (before after : List (Str × Str)) (m : List (Str × Str))
    (name v : Str) (h : ∀ o ∈ after, o.1 ≠ name) :
    mapFind ((before ++ (name, v) :: after).foldl (fun m o => mapAssign o.1 o.2 m) m) name
      = some v := by
  rw [List.foldl_append, List.foldl_cons, mapFind_foldl_other after _ name h,
    mapFind_assign_self]

theorem nodup_assign (k v : Str) (m : List (Str × Str)) (h : (m.map Prod.fst).Nodup) :
    ((mapAssign k v m).map Prod.fst).Nodup := by
  unfold mapAssign
  rw [List.map_cons, List.nodup_cons]
  constructor
  · intro hmem
    obtain ⟨x, hx, hxk⟩ := List.mem_map.1 hmem
    have := (List.mem_filter.1 hx).2
    simp at this
    exact this hxk
  · exact h.sublist ((List.filter_sublist _).map _)

theorem nodup_foldl_assign (occs : List (Str × Str)) (m : List (Str × Str))
    (h : (m.map Prod.fst).Nodup) :
    ((occs.foldl (fun m o => mapAssign o.1 o.2 m) m).map Prod.fst).Nodup := by
  induction occs generalizing m with
  | nil => exact h
  | cons o os ih => rw [List.foldl_cons]; exact ih _ (nodup_assign _ _ _ h)

theorem mem_setInsert_iff (x y : Str) (fl : List Str) :
    y ∈ setInsert x fl ↔ y = x ∨ y ∈ fl := by
  unfold setInsert
  split
  · next hx =>
    constructor
    · intro h; exact Or.inr h
    · intro h
      rcases h with h | h
      · rw [h]; exact hx
      · exact h
  · simp only [List.mem_append, List.mem_singleton]
    tauto

theorem mem_foldl_setInsert (f : Nat → Char) (js : List Nat) (fl : List Str) (y : Str) :
    y ∈ js.foldl (fun fl j => setInsert [f j] fl) fl ↔ y ∈ fl ∨ ∃ j ∈ js, y = [f j] := by
  induction js generalizing fl with
  | nil => simp
  | cons j js ih =>
    rw [List.foldl_cons, ih, mem_setInsert_iff]
    constructor
    · intro h
      rcases h with (h | h) | ⟨i, hi, hy⟩
      · exact Or.inr ⟨j, by simp, h⟩
      · exact Or.inl h
      · exact Or.inr ⟨i, by simp [hi], hy⟩
    · intro h
      rcases h with h | ⟨i, hi, hy⟩
      · exact Or.inl (Or.inr h)
      · rcases List.mem_cons.1 hi with e | e
        · rw [e] at hy; exact Or.inl (Or.inl hy)
        · exact Or.inr ⟨i, e, hy⟩

theorem optEnter_flags_short (tok : Str) (a : Args) (heq : '=' ∉ tok)
    (hc : charAt tok 1 ≠ '-') :
    (optEnter tok a)._flags
      = (List.range' 1 (tok.length - 2)).foldl (fun fl j => setInsert [charAt tok j] fl)
          a._flags := by
  have hl : ¬ (decide (tok.length > 1) && charAt tok 1 == '-') = true := by
    simp [hc]
  rw [optEnter, if_neg hl]
  simp only [shortFlags, j_end, find_none_of_not_mem tok heq]
  rfl

theorem mem_optEnter_iff (tok : Str) (a : Args) (heq : '=' ∉ tok) (hc : charAt tok 1 ≠ '-')
    (name : Str) :
    name ∈ (optEnter tok a)._flags ↔
      name ∈ a._flags ∨ ∃ j, 1 ≤ j ∧ j + 1 < tok.length ∧ name = [charAt tok j] := by
  rw [optEnter_flags_short tok a heq hc, mem_foldl_setInsert]
  constructor
  · intro h
    rcases h with h | ⟨j, hj, hy⟩
    · exact Or.inl h
    · have := List.mem_range'_1.1 hj
      exact Or.inr ⟨j, this.1, by omega, hy⟩
  · intro h
    rcases h with h | ⟨j, h1, h2, hy⟩
    · exact Or.inl h
    · exact Or.inr ⟨j, List.mem_range'_1.2 ⟨h1, by omega⟩, hy⟩

theorem validate_after_missing (a : Args) (e : Entry) (he : e.error ≠ []) :
    ({ a with _options := a._options ++ [e] } : Args).validate =
      if a._help then ValidateResult.helpExit
      else ValidateResult.errorExit
        ((scanErrors (a._arg_options ++ a._options)).getD e.error) := by
  rw [validate_eq]
  show (if a._help = true then ValidateResult.helpExit
      else
        match scanErrors (a._arg_options ++ (a._options ++ [e])) with
        | some msg => ValidateResult.errorExit msg
        | none => ValidateResult.returned) = _
  rw [← List.append_assoc, scanErrors_append]
  cases scanErrors (a._arg_options ++ a._options) with
  | some msg => rfl
  | none => simp [scanErrors, he]

/-! ## Claims -/

/-- C1: for every key without `=`, every positional-shaped value and every run of tokens
before and after, the tokenizer reaches the same registry on `--key=value` as on
`--key value`; so `keyword_values` maps the key to the same raw value in both runs, and a
keyword declared after the constructor gets the same raw value. -/
theorem C1_eq_form_and_space_form_agree (program_name key value : Str) (pre post : List Str)
    (hkey : '=' ∉ key) (hval : positionalShaped value = true) :
    mapFind (Args.tokenize program_name
        (pre ++ ['-' :: '-' :: (key ++ '=' :: value)] ++ post))._kwargs key
      = mapFind (Args.tokenize program_name
        (pre ++ ['-' :: '-' :: key, value] ++ post))._kwargs key
    ∧ Args.ctor program_name (pre ++ ['-' :: '-' :: (key ++ '=' :: value)] ++ post)
      = Args.ctor program_name (pre ++ ['-' :: '-' :: key, value] ++ post)
    ∧ ∀ aliases help implicit_value,
        ((Args.ctor program_name
            (pre ++ ['-' :: '-' :: (key ++ '=' :: value)] ++ post)).kwarg
              aliases help implicit_value).2.value
          = ((Args.ctor program_name
            (pre ++ ['-' :: '-' :: key, value] ++ post)).kwarg
              aliases help implicit_value).2.value := by
  have h := tokenize_eq_form program_name key value pre post hkey hval
  refine ⟨by rw [h], by rw [Args.ctor, Args.ctor, h], ?_⟩
  intro aliases help implicit_value
  rw [Args.ctor, Args.ctor, h]

/-- C1 at `-a --key=v x` against `-a --key v x`. -/
theorem C1_eq_form_and_space_form_agree_witness :
    mapFind (Args.tokenize [] (["-a".toList] ++ ["--key=v".toList] ++ ["x".toList]))._kwargs
        "key".toList = some "v".toList
    ∧ mapFind (Args.tokenize [] (["-a".toList] ++ ["--key".toList, "v".toList]
        ++ ["x".toList]))._kwargs "key".toList = some "v".toList
    ∧ mapFind (Args.tokenize [] (["-a".toList] ++ ["--key=v".toList] ++ ["x".toList]))._kwargs
        "key".toList
      = mapFind (Args.tokenize [] (["-a".toList] ++ ["--key".toList, "v".toList]
        ++ ["x".toList]))._kwargs "key".toList :=
  ⟨by decide, by decide,
    (C1_eq_form_and_space_form_agree [] "key".toList "v".toList ["-a".toList] ["x".toList]
      (by decide) (by decide)).1⟩

/-- C2: for every token list the tokenizer's `positional_values` is, in order, the list of
the positional-shaped tokens that are not consumed as an option value (a token at index
`i` is consumed iff `i > 0` and the token at `i - 1` is option-shaped and has no `=`); the
single token `-5` is a positional value and registers no flag. -/
theorem C2_positional_values_characterised (program_name : Str) (params : List Str) :
    (Args.tokenize program_name params)._args = positionalSpec params
    ∧ (Args.tokenize program_name ["-5".toList])._args = ["-5".toList]
    ∧ (Args.tokenize program_name ["-5".toList])._flags = []
    ∧ (Args.tokenize program_name ["-5".toList])._kwargs = [] := by
  refine ⟨?_, rfl, rfl, rfl⟩
  rw [tokenize_eq_runTokens, runTokens, flush_args, (foldl_step_args _ params).1]
  rfl

/-- C3: a short cluster `-c1...cn` (`n ≥ 1`, no `=`, `c1` neither `-` nor a digit) that is
the last token or is followed by a token that is not positional-shaped adds exactly the
one-character names `c1`, ..., `cn` to `flags`: the loop goes on behind the cluster from
the registry reached on the tokens before it, with these names inserted and with
`keyword_values` and `positional_values` as they were. For `["-abc"]` the flags are exactly
`a`, `b`, `c`. -/
theorem C3_short_cluster_sets_each_flag (program_name : Str) (pre post : List Str)
    (c1 : Char) (cs : Str)
    (heq : '=' ∉ c1 :: cs) (hdash : c1 ≠ '-') (hdig : isdigit c1 = false)
    (hnext : ∀ q rest, post = q :: rest → positionalShaped q = false) :
    Args.tokenize program_name (pre ++ ['-' :: c1 :: cs] ++ post) =
      ctorLoop (pre ++ ['-' :: c1 :: cs] ++ post) post.length (pre.length + 1)
        { _arg_idx := (Args.tokenize program_name pre)._arg_idx,
          _help := (Args.tokenize program_name pre)._help,
          program_name := (Args.tokenize program_name pre).program_name,
          _options := (Args.tokenize program_name pre)._options,
          _arg_options := (Args.tokenize program_name pre)._arg_options,
          _args := (Args.tokenize program_name pre)._args,
          _flags := (c1 :: cs).foldl (fun fl c => setInsert [c] fl)
            (Args.tokenize program_name pre)._flags,
          _kwargs := (Args.tokenize program_name pre)._kwargs }
    ∧ (Args.tokenize program_name ["-abc".toList])._flags
        = ["a".toList, "b".toList, "c".toList]
    ∧ (∀ name, setHas (Args.tokenize program_name ["-abc".toList])._flags name = true ↔
        name = "a".toList ∨ name = "b".toList ∨ name = "c".toList)
    ∧ (Args.tokenize program_name ["-abc".toList])._kwargs = []
    ∧ (Args.tokenize program_name ["-abc".toList])._args = [] := by
  refine ⟨tokenize_cluster program_name pre post c1 cs heq hdash hdig hnext, rfl, ?_, rfl, rfl⟩
  intro name
  have h : (Args.tokenize program_name ["-abc".toList])._flags
      = ["a".toList, "b".toList, "c".toList] := rfl
  rw [h]
  simp [setHas]

/-- C3 at the cluster `-xy` between `--k=1` and `--z`. -/
theorem C3_short_cluster_sets_each_flag_witness :
    (Args.tokenize [] (["--k=1".toList] ++ ["-xy".toList] ++ ["--z".toList]))._flags
        = ["x".toList, "y".toList, "z".toList]
    ∧ Args.tokenize [] (["--k=1".toList] ++ ['-' :: 'x' :: ['y']] ++ ["--z".toList]) =
      ctorLoop (["--k=1".toList] ++ ['-' :: 'x' :: ['y']] ++ ["--z".toList]) 1 2
        { _arg_idx := -1, _help := false, program_name := [], _options := [],
          _arg_options := [], _args := [],
          _flags := ['x', 'y'].foldl (fun fl c => setInsert [c] fl) [],
          _kwargs := [("k".toList, "1".toList)] } :=
  ⟨by decide,
    (C3_short_cluster_sets_each_flag [] ["--k=1".toList] ["--z".toList] 'x' ['y']
      (by decide) (by decide) (by decide)
      (by intro q rest h; cases h; decide)).1⟩

/-- C4: after the constructor and any sequence of declaration calls holding `n` calls of
`arg`, the next call of `arg` creates (and appends to the declared positionals) an entry
of kind ARG whose only key is `arg_n` and whose raw value is `positional_values[n]` when
`n < length(positional_values)` and the empty string (absent) otherwise; the keyword and
flag declarations in between do not count. -/
theorem C4_nth_positional_takes_slot_n (program_name : Str) (params : List Str)
    (ds : List Decl) (help : Str) :
    ((((Args.ctor program_name params).declareAll ds).arg help).2 =
      { type := ARG_TYPE.ARG, keys := ["arg_".toList ++ to_string (countArgs ds)], help := help,
        value :=
          if countArgs ds < (Args.tokenize program_name params)._args.length then
            (Args.tokenize program_name params)._args.getD (countArgs ds) []
          else [],
        implicit_value := none, default_str := none, error := [] })
    ∧ (((Args.ctor program_name params).declareAll ds).arg help).1._arg_options
        = ((Args.ctor program_name params).declareAll ds)._arg_options
            ++ [(((Args.ctor program_name params).declareAll ds).arg help).2]
    ∧ countArgs (ds ++ [Decl.arg help]) = countArgs ds + 1
    ∧ (∀ key h iv, countArgs (ds ++ [Decl.kwarg key h iv]) = countArgs ds)
    ∧ (∀ key h, countArgs (ds ++ [Decl.flag key h]) = countArgs ds) := by
  refine ⟨?_, rfl, ?_, ?_, ?_⟩
  · rw [arg_entry _ _ _ (registry_arg_idx program_name params ds), registry_args]
  · induction ds with
    | nil => rfl
    | cons d ds ih =>
      rw [List.cons_append, countArgs_cons d (ds ++ _), ih, countArgs_cons d ds]; omega
  · intro key h iv
    induction ds with
    | nil => rfl
    | cons d ds ih =>
      rw [List.cons_append, countArgs_cons d (ds ++ _), ih, countArgs_cons d ds]
  · intro key h
    induction ds with
    | nil => rfl
    | cons d ds ih =>
      rw [List.cons_append, countArgs_cons d (ds ++ _), ih, countArgs_cons d ds]

/-- C5: `kwarg` creates an entry of kind KWARG whose keys are the aliases of the
comma-separated list; its raw value is `keyword_values[a]` for the first alias `a`, in
declaration order, that is a key of `keyword_values`; when no alias is a key, the raw value
is the implicit value if one was supplied and some alias is in `flags`, and the empty
string (absent) in every other case. -/
theorem C5_keyword_first_alias_wins (a : Args) (key help : Str) (implicit_value : Option Str) :
    (a.kwarg key help implicit_value).2.type = ARG_TYPE.KWARG
    ∧ (a.kwarg key help implicit_value).2.keys = split key
    ∧ (a.kwarg key help implicit_value).1._options
        = a._options ++ [(a.kwarg key help implicit_value).2]
    ∧ (∀ pre al post v, split key = pre ++ al :: post →
        (∀ b ∈ pre, mapFind a._kwargs b = none) → mapFind a._kwargs al = some v →
        (a.kwarg key help implicit_value).2.value = v)
    ∧ ((∀ b ∈ split key, mapFind a._kwargs b = none) →
        (∀ iv, implicit_value = some iv → (∃ b ∈ split key, b ∈ a._flags) →
          (a.kwarg key help implicit_value).2.value = iv)
        ∧ (implicit_value = none ∨ ¬ (∃ b ∈ split key, b ∈ a._flags) →
          (a.kwarg key help implicit_value).2.value = [])) := by
  have hkeys : (a.kwarg key help implicit_value).2.keys = split key := by
    unfold Args.kwarg
    simp only [Entry.mk4]
    split
    · rfl
    · split
      · split <;> rfl
      · rfl
  have htype : (a.kwarg key help implicit_value).2.type = ARG_TYPE.KWARG := by
    unfold Args.kwarg
    simp only [Entry.mk4]
    split
    · rfl
    · split
      · split <;> rfl
      · rfl
  refine ⟨htype, hkeys, rfl, ?_, ?_⟩
  · intro pre al post v hsplit hpre hv
    have hfm : Entry.findMap (split key) a._kwargs = some v := by
      rw [hsplit]; exact findMap_first pre post al v _ hpre hv
    simp [Args.kwarg, Entry.mk4, hfm]
  · intro hnone
    have hfm : Entry.findMap (split key) a._kwargs = none := findMap_none _ _ hnone
    constructor
    · intro iv hiv hfl
      have hfs : Entry.findSet (split key) a._flags = true := (findSet_iff _ _).2 hfl
      simp [Args.kwarg, Entry.mk4, hfm, hiv, hfs]
    · intro h
      rcases h with h | h
      · simp [Args.kwarg, Entry.mk4, hfm, h]
      · have hfs : Entry.findSet (split key) a._flags = false := by
          cases hb : Entry.findSet (split key) a._flags with
          | false => rfl
          | true => exact absurd ((findSet_iff _ _).1 hb) h
        cases implicit_value <;> simp [Args.kwarg, Entry.mk4, hfm, hfs]

/-- C5 on `--key v1 -k v2 -t` with the aliases `k,key`: the first declared alias `k` wins
although `--key` came first on the command line; `t,toggle` with an implicit value takes
it from the flag `t`. -/
theorem C5_keyword_first_alias_wins_witness :
    ((Args.ctor [] ["--key".toList, "v1".toList, "-k".toList, "v2".toList, "-t".toList]).kwarg
        "k,key".toList [] none).2.value = "v2".toList
    ∧ ((Args.ctor [] ["--key".toList, "v1".toList, "-k".toList, "v2".toList, "-t".toList]).kwarg
        "t,toggle".toList [] (some "on".toList)).2.value = "on".toList
    ∧ ((Args.ctor [] ["--key".toList, "v1".toList, "-k".toList, "v2".toList, "-t".toList]).kwarg
        "t,toggle".toList [] none).2.value = [] :=
  ⟨(C5_keyword_first_alias_wins
      (Args.ctor [] ["--key".toList, "v1".toList, "-k".toList, "v2".toList, "-t".toList])
      "k,key".toList [] none).2.2.2.1 [] "k".toList ["key".toList] "v2".toList
      (by decide) (by decide) (by decide),
    by decide, by decide⟩

/-- C6: `flag` returns true iff at least one alias is in `flags`; it appends an entry of
kind FLAG with implicit value `true`, whose raw value is `1` when it returns true and `0`
when it returns false, so that `get<bool>` of the stored raw value is the returned
value. -/
theorem C6_flag_presence (a : Args) (key help : Str) :
    ((a.flag key help).2 = true ↔ ∃ b ∈ split key, b ∈ a._flags)
    ∧ (a.flag key help).1._options = a._options ++
        [{ type := ARG_TYPE.FLAG, keys := split key, help := help,
           value := if (a.flag key help).2 then "1".toList else "0".toList,
           implicit_value := some "true".toList, default_str := none, error := [] }]
    ∧ get_bool (if (a.flag key help).2 then "1".toList else "0".toList)
        = Except.ok (a.flag key help).2 := by
  refine ⟨?_, ?_, ?_⟩
  · simp only [Args.flag, Entry.mk4]
    exact findSet_iff _ _
  · simp only [Args.flag, Entry.mk4, boolToString]
    rfl
  · cases (a.flag key help).2 <;> rfl

/-- C7: when the token list has at most `n` positional values, the entry created by the
`n`-th call of `arg` (counting from 0) converts, without a default, to the zero value of
the requested type and gets the error `Argument missing: arg_n`; with a default `d` it
converts to `d` itself, keeps an empty error, and its raw value and default string become
the textual form of `d`. -/
theorem C7_missing_positional {T : Type} (c : Conv T) (program_name : Str)
    (params : List Str) (ds : List Decl) (help : Str) (d : T)
    (hfew : (Args.tokenize program_name params)._args.length ≤ countArgs ds) :
    ((((Args.ctor program_name params).declareAll ds).arg help).2.convert c =
      Except.ok (c.zero,
        { type := ARG_TYPE.ARG, keys := ["arg_".toList ++ to_string (countArgs ds)],
          help := help, value := [], implicit_value := none, default_str := none,
          error := "Argument missing: ".toList ++ ("arg_".toList ++ to_string (countArgs ds)) }))
    ∧ ((((Args.ctor program_name params).declareAll ds).arg help).2.set_default c d =
      Except.ok (d,
        { type := ARG_TYPE.ARG, keys := ["arg_".toList ++ to_string (countArgs ds)],
          help := help, value := c.toString d, implicit_value := none,
          default_str := some (c.toString d), error := [] })) := by
  have he : (((Args.ctor program_name params).declareAll ds).arg help).2 =
      { type := ARG_TYPE.ARG, keys := ["arg_".toList ++ to_string (countArgs ds)], help := help,
        value := [], implicit_value := none, default_str := none, error := [] } := by
    rw [arg_entry _ _ _ (registry_arg_idx program_name params ds), registry_args,
      if_neg (by omega)]
  rw [he]
  constructor
  · rw [convert_missing c _ rfl rfl, missingMsg, get_keys_arg]
  · rw [set_default_missing c _ d rfl rfl]

/-- C7 on the tokens `--x=1 7` for the second positional (`n = 1`), declared after a flag
and a first positional. -/
theorem C7_missing_positional_witness :
    ((((Args.ctor [] ["--x=1".toList, "7".toList]).declareAll
        [Decl.flag "v".toList [], Decl.arg []]).arg []).2.convert intConv =
      Except.ok ((0 : Int),
        { type := ARG_TYPE.ARG, keys := ["arg_1".toList],
          help := [], value := [], implicit_value := none, default_str := none,
          error := "Argument missing: arg_1".toList }))
    ∧ ((((Args.ctor [] ["--x=1".toList, "7".toList]).declareAll
        [Decl.flag "v".toList [], Decl.arg []]).arg []).2.set_default intConv 42 =
      Except.ok ((42 : Int),
        { type := ARG_TYPE.ARG, keys := ["arg_1".toList],
          help := [], value := "42".toList, implicit_value := none,
          default_str := some "42".toList, error := [] })) :=
  C7_missing_positional intConv [] ["--x=1".toList, "7".toList]
    [Decl.flag "v".toList [], Decl.arg []] [] 42 (by decide)

/-- C8, as stated, fails on the token `--key=`: the raw value of `key` is matched (as the
empty string), yet converting the declared keyword without a default records the
missing-argument error, and converting it with a default returns the default. -/
theorem C8_counterexample :
    mapFind (Args.ctor [] ["--key=".toList])._kwargs "key".toList = some []
    ∧ (((Args.ctor [] ["--key=".toList]).kwarg "key".toList [] none).2.convert stringConv
        = Except.ok ([],
            { type := ARG_TYPE.KWARG, keys := ["key".toList], help := [], value := [],
              implicit_value := none, default_str := none,
              error := "Argument missing: --key".toList }))
    ∧ (((Args.ctor [] ["--key=".toList]).kwarg "key".toList [] none).2.set_default stringConv
          "dflt".toList
        = Except.ok ("dflt".toList,
            { type := ARG_TYPE.KWARG, keys := ["key".toList], help := [],
              value := "dflt".toList, implicit_value := none,
              default_str := some "dflt".toList, error := [] })) := by
  refine ⟨by decide, rfl, rfl⟩

/-- C8, amended: for every entry with no prior error a conversion takes the missing-value
branch (the missing-argument error without a default, the default with one) if and only if
the entry's raw value string is empty, and otherwise parses the raw value whatever the
default; a keyword matched as the empty string has an empty raw value string, so it takes
the missing-value branch like an unmatched one. -/
theorem C8_missing_branch_iff_empty_raw_value {T : Type} (c : Conv T) (e : Entry) (d : T)
    (herr : e.error = []) :
    (e.value = [] →
      e.convert c = Except.ok (c.zero, { e with error := missingMsg e })
      ∧ e.set_default c d =
          Except.ok (d, { e with value := c.toString d, default_str := some (c.toString d) }))
    ∧ (e.value ≠ [] →
      e.convert c =
        (match c.get e.value with
         | Except.ok v => Except.ok (v, e)
         | Except.error Exc.invalid_argument =>
           Except.ok (c.zero, { e with error := invalidMsg e })
         | Except.error Exc.out_of_range => Except.error Exc.out_of_range)
      ∧ e.set_default c d =
        (match c.get e.value with
         | Except.ok v => Except.ok (v, { e with default_str := some (c.toString d) })
         | Except.error Exc.invalid_argument =>
           Except.ok (c.zero, { e with default_str := some (c.toString d), error := invalidMsg e })
         | Except.error Exc.out_of_range => Except.error Exc.out_of_range))
    ∧ (∀ (a : Args) (key help : Str) (iv : Option Str), ',' ∉ key →
        mapFind a._kwargs key = some [] → (a.kwarg key help iv).2.value = []) := by
  refine ⟨fun hval => ⟨convert_missing c e herr hval, set_default_missing c e d herr hval⟩,
    fun hval => ⟨convert_present c e herr hval, set_default_present c e d herr hval⟩, ?_⟩
  intro a key help iv hkey hfind
  have hfm : Entry.findMap (split key) a._kwargs = some [] := by
    rw [split_no_comma key hkey]
    simp [Entry.findMap, hfind]
  simp [Args.kwarg, Entry.mk4, hfm]

/-- C8 amended, on the keyword matched by `--key=` (empty raw value) with the default
`dflt`. -/
theorem C8_missing_branch_iff_empty_raw_value_witness :
    ((Args.ctor [] ["--key=".toList]).kwarg "key".toList [] none).2.value = []
    ∧ ((Args.ctor [] ["--key=".toList]).kwarg "key".toList [] none).2.convert stringConv
        = Except.ok ([],
            { ((Args.ctor [] ["--key=".toList]).kwarg "key".toList [] none).2 with
              error := missingMsg ((Args.ctor [] ["--key=".toList]).kwarg "key".toList [] none).2 })
    ∧ ((Args.ctor [] ["--key=x".toList]).kwarg "key".toList [] none).2.set_default stringConv
          "dflt".toList
        = Except.ok ("x".toList,
            { ((Args.ctor [] ["--key=x".toList]).kwarg "key".toList [] none).2 with
              default_str := some "dflt".toList }) :=
  ⟨by decide,
    ((C8_missing_branch_iff_empty_raw_value stringConv
      ((Args.ctor [] ["--key=".toList]).kwarg "key".toList [] none).2 "dflt".toList
      (by decide)).1 (by decide)).1,
    rfl⟩

/-- C9: a raw value with no leading number is recorded as a conversion error (the result
is 0 and the entry's error is the invalid-argument message), but a base-10 literal beyond
the range of `int` leaves `_convert` as an uncaught `std::out_of_range` with nothing
recorded on the entry, and one beyond the range of `unsigned int` wraps to 0 with no error
at all. -/
theorem C9_overflow_is_not_recorded :
    (∀ e : Entry, e.error = [] → e.value ≠ [] → parseDecimal e.value = none →
        e.convert intConv = Except.ok ((0 : Int), { e with error := invalidMsg e }))
    ∧ ((Args.ctor [] ["abc".toList]).arg "n".toList).2.convert intConv
        = Except.ok ((0 : Int),
            { type := ARG_TYPE.ARG, keys := ["arg_0".toList], help := "n".toList,
              value := "abc".toList, implicit_value := none, default_str := none,
              error := "Invalid argument, could not convert \"abc\" for arg_0 (n)".toList })
    ∧ ((Args.ctor [] ["99999999999".toList]).arg "n".toList).2.convert intConv
        = Except.error Exc.out_of_range
    ∧ ((Args.ctor [] ["4294967296".toList]).arg "n".toList).2.convert unsignedIntConv
        = Except.ok ((0 : Nat),
            { type := ARG_TYPE.ARG, keys := ["arg_0".toList], help := "n".toList,
              value := "4294967296".toList, implicit_value := none, default_str := none,
              error := [] }) := by
  refine ⟨?_, rfl, rfl, rfl⟩
  intro e herr hval hparse
  rw [convert_present intConv e herr hval]
  simp [intConv, get_int, stoi, hparse]

/-- C10: for a non-empty raw string `s`, `get<std::vector<E>>` splits `s` at every comma
into (number of commas) + 1 pieces, none of which holds a comma and which joined by commas
give `s` back; it parses the pieces in order with `get<E>`, returns the parsed elements in
order when every piece parses, and throws when some piece does not; `1,2,3` gives
`[1,2,3]` as integers, while `1,` and `1,,2` fail on their empty piece. -/
theorem C10_vector_splits_on_commas {E : Type} (c : Conv E) (s : Str) (hs : s ≠ []) :
    (split s).length = s.count ',' + 1
    ∧ List.intercalate [','] (split s) = s
    ∧ (∀ p ∈ split s, ',' ∉ p)
    ∧ (∀ vs, List.Forall₂ (fun p v => c.get p = Except.ok v) (split s) vs ↔
        get_vector c s = Except.ok vs)
    ∧ (∀ p ∈ split s, ∀ x, c.get p = Except.error x → ∃ y, get_vector c s = Except.error y)
    ∧ get_vector intConv "1,2,3".toList = Except.ok [1, 2, 3]
    ∧ get_vector intConv "1,".toList = Except.error Exc.invalid_argument
    ∧ get_vector intConv "1,,2".toList = Except.error Exc.invalid_argument := by
  have hg : get_vector c s = transform c.get (split s) := by
    simp [get_vector, hs]
  refine ⟨?_, ?_, ?_, ?_, ?_, rfl, rfl, rfl⟩
  · rw [split_eq_splitRef, splitRef_length]
  · rw [split_eq_splitRef, splitRef_intercalate]
  · rw [split_eq_splitRef]; exact splitRef_pieces s
  · intro vs
    rw [hg]
    exact ⟨transform_ok _ _ _, transform_length _ _ _⟩
  · intro p hp x hx
    rw [hg]
    exact transform_error _ _ p x hp hx

/-- C10 on the raw string `7,-8`. -/
theorem C10_vector_splits_on_commas_witness :
    (split "7,-8".toList).length = 2
    ∧ split "7,-8".toList = ["7".toList, "-8".toList]
    ∧ get_vector intConv "7,-8".toList = Except.ok [7, -8] :=
  ⟨(C10_vector_splits_on_commas intConv "7,-8".toList (by decide)).1,
    by decide,
    ((C10_vector_splits_on_commas intConv "7,-8".toList (by decide)).2.2.2.1 [7, -8]).1
      (List.Forall₂.cons rfl (List.Forall₂.cons rfl List.Forall₂.nil))⟩

/-- C11: `get<std::vector<E>>` applied to the empty string returns, for every element type,
a sequence of length 1 holding the value-initialised element, not the empty sequence; so
`--m=,` read as a vector of vectors of `int` gives `[[0],[0]]`. -/
theorem C11_empty_string_gives_one_zero_element {E : Type} (c : Conv E) :
    get_vector c [] = Except.ok [c.zero]
    ∧ (∀ vs, get_vector c [] = Except.ok vs → vs.length = 1)
    ∧ split [] = [[]]
    ∧ ((Args.ctor [] ["--m=,".toList]).kwarg "m".toList [] none).2.convert
          (vectorConv (vectorConv intConv))
        = Except.ok ([[(0 : Int)], [0]],
            ((Args.ctor [] ["--m=,".toList]).kwarg "m".toList [] none).2) := by
  have h : get_vector c [] = Except.ok [c.zero] := rfl
  refine ⟨h, ?_, rfl, rfl⟩
  intro vs hvs
  rw [h] at hvs
  cases hvs
  rfl

/-- C13: on every registry reached by the constructor and declaration calls, whatever
errors conversions have recorded on the declared entries, `validate` ends in the help
outcome (exit status 0) iff `help` is in `flags`; otherwise it exits with status -1 on the
error of the first entry with a non-empty error, positionals first and then keywords and
flags, each in declaration order; and it returns iff `help` is not in `flags` and no
declared entry has an error. -/
theorem C13_validate_outcomes (program_name : Str) (params : List Str) (ds : List Decl)
    (arg_options options : List Entry) :
    ((((Args.ctor program_name params).declareAll ds).withEntries arg_options options).validate
        = ValidateResult.helpExit
      ↔ "help".toList ∈ (Args.tokenize program_name params)._flags)
    ∧ ValidateResult.helpExit.exitStatus = some 0
    ∧ ("help".toList ∉ (Args.tokenize program_name params)._flags →
        ∀ pre e post, arg_options ++ options = pre ++ e :: post →
          (∀ x ∈ pre, x.error = []) → e.error ≠ [] →
          (((Args.ctor program_name params).declareAll ds).withEntries
              arg_options options).validate = ValidateResult.errorExit e.error
          ∧ (ValidateResult.errorExit e.error).exitStatus = some (-1))
    ∧ ((((Args.ctor program_name params).declareAll ds).withEntries
          arg_options options).validate = ValidateResult.returned
      ↔ "help".toList ∉ (Args.tokenize program_name params)._flags
          ∧ ∀ e ∈ arg_options ++ options, e.error = []) := by
  have hh : ((((Args.ctor program_name params).declareAll ds).withEntries
      arg_options options))._help
        = setHas (Args.tokenize program_name params)._flags "help".toList :=
    registry_help program_name params ds
  have hv := validate_eq
    (((Args.ctor program_name params).declareAll ds).withEntries arg_options options)
  rw [hh] at hv
  have hopts : ((((Args.ctor program_name params).declareAll ds).withEntries
      arg_options options))._arg_options ++ ((((Args.ctor program_name params).declareAll
        ds).withEntries arg_options options))._options = arg_options ++ options := rfl
  rw [hopts] at hv
  by_cases hm : "help".toList ∈ (Args.tokenize program_name params)._flags
  · have hs : setHas (Args.tokenize program_name params)._flags "help".toList = true :=
      decide_eq_true hm
    rw [hs] at hv
    simp only [if_true] at hv
    refine ⟨⟨fun _ => hm, fun _ => hv⟩, rfl, fun h => absurd hm h, ?_⟩
    rw [hv]
    constructor
    · intro h; cases h
    · intro h; exact absurd hm h.1
  · have hs : setHas (Args.tokenize program_name params)._flags "help".toList = false :=
      decide_eq_false hm
    rw [hs] at hv
    simp only [Bool.false_eq_true, if_false] at hv
    refine ⟨?_, rfl, ?_, ?_⟩
    · constructor
      · intro h
        rw [hv] at h
        cases hsc : scanErrors (arg_options ++ options) <;> rw [hsc] at h <;> cases h
      · intro h; exact absurd h hm
    · intro _ pre e post hsplit hpre he
      rw [hv, hsplit, scanErrors_first pre post e hpre he]
      exact ⟨rfl, rfl⟩
    · rw [hv]
      constructor
      · intro h
        refine ⟨hm, (scanErrors_eq_none_iff _).1 ?_⟩
        cases hsc : scanErrors (arg_options ++ options) with
        | none => rfl
        | some msg => rw [hsc] at h; cases h
      · intro h
        rw [(scanErrors_eq_none_iff _).2 h.2]

/-- C14: on an entry whose error is already non-empty every conversion, for any requested
type, returns the zero value of the type: without a default the entry is left as it was,
and with a default only its default string is written, so the error and the raw value
stay unchanged. -/
theorem C14_error_is_sticky {T : Type} (c : Conv T) (e : Entry) (d : T)
    (herr : e.error ≠ []) :
    e.convert c = Except.ok (c.zero, e)
    ∧ e.set_default c d = Except.ok (c.zero, { e with default_str := some (c.toString d) })
    ∧ (∀ v e', e.convert c = Except.ok (v, e') ∨ e.set_default c d = Except.ok (v, e') →
        e'.error = e.error ∧ e'.value = e.value) := by
  have h1 : e.convert c = Except.ok (c.zero, e) := by
    simp [Entry.convert, Entry._convert, herr]
  have h2 : e.set_default c d
      = Except.ok (c.zero, { e with default_str := some (c.toString d) }) := by
    simp [Entry.set_default, Entry._convert, herr]
  refine ⟨h1, h2, ?_⟩
  intro v e' h
  rcases h with h | h
  · rw [h1] at h; cases h; exact ⟨rfl, rfl⟩
  · rw [h2] at h; cases h; exact ⟨rfl, rfl⟩

/-- C14 on the positional of an empty command line after a first failed conversion to
`int`: a second conversion with the default 7 returns 0 and keeps the error. -/
theorem C14_error_is_sticky_witness :
    ((Args.ctor [] []).arg []).2.convert intConv
      = Except.ok ((0 : Int),
          { type := ARG_TYPE.ARG, keys := ["arg_0".toList], help := [], value := [],
            implicit_value := none, default_str := none,
            error := "Argument missing: arg_0".toList })
    ∧ Entry.set_default intConv
        { type := ARG_TYPE.ARG, keys := ["arg_0".toList], help := [], value := [],
          implicit_value := none, default_str := none,
          error := "Argument missing: arg_0".toList } 7
      = Except.ok ((0 : Int),
          { type := ARG_TYPE.ARG, keys := ["arg_0".toList], help := [], value := [],
            implicit_value := none, default_str := some "7".toList,
            error := "Argument missing: arg_0".toList }) :=
  ⟨rfl,
    (C14_error_is_sticky intConv
      { type := ARG_TYPE.ARG, keys := ["arg_0".toList], help := [], value := [],
        implicit_value := none, default_str := none,
        error := "Argument missing: arg_0".toList } 7 (by decide)).2.1⟩

/-- C15: `get<bool>` never throws, and it returns true iff the string is exactly `true`,
`TRUE` or `1`; the empty string, `True` and `yes` give false. -/
theorem C15_bool_parse (s : Str) :
    (∃ b, get_bool s = Except.ok b)
    ∧ (get_bool s = Except.ok true ↔
        s = "true".toList ∨ s = "TRUE".toList ∨ s = "1".toList)
    ∧ (get_bool s = Except.ok false ↔
        ¬ (s = "true".toList ∨ s = "TRUE".toList ∨ s = "1".toList))
    ∧ get_bool [] = Except.ok false
    ∧ get_bool "True".toList = Except.ok false
    ∧ get_bool "yes".toList = Except.ok false := by
  refine ⟨⟨_, rfl⟩, ?_, ?_, rfl, rfl, rfl⟩
  · simp [get_bool, or_assoc]
  · simp [get_bool, and_assoc]

/-- C17: on the tokens `3 --name=Ann -v` with the declarations, in this order, a positional
(help `count`) converted to `int`, the keyword `name` converted to a string with the default
`anon`, and the flag `v`: the values are 3, `Ann` and true, no declared entry carries an
error, `_help` is false and `validate` returns. -/
theorem C17_example_run :
    (match Args.argAs intConv
        (Args.ctor "prog".toList ["3".toList, "--name=Ann".toList, "-v".toList])
        "count".toList none with
      | Except.error _ => none
      | Except.ok (count, a1) =>
        match Args.kwargAs stringConv a1 "name".toList "the name".toList none
            (some "anon".toList) with
        | Except.error _ => none
        | Except.ok (name, a2) =>
          some (count, name, (a2.flag "v".toList "verbose".toList).2,
            ((a2.flag "v".toList "verbose".toList).1._arg_options
              ++ (a2.flag "v".toList "verbose".toList).1._options).map (fun e => e.error),
            (a2.flag "v".toList "verbose".toList).1._help,
            (a2.flag "v".toList "verbose".toList).1.validate))
      = some ((3 : Int), "Ann".toList, true, [[], [], [], []], false,
          ValidateResult.returned) := by
  rfl

/-- C16, as stated, fails on strings of length at least 2 that do not read as a number in
range: `ab` makes `get<char>` throw `std::invalid_argument`, and the base-10 literal
`4294967296`, whose value modulo 2^8 is 0, makes it throw `std::out_of_range`. -/
theorem C16_counterexample :
    get_char "ab".toList = Except.error Exc.invalid_argument
    ∧ get_char "4294967296".toList = Except.error Exc.out_of_range
    ∧ decimalValue "4294967296".toList % 256 = 0 := by
  refine ⟨rfl, rfl, by decide⟩

/-- C16, amended: `get<char>` throws on the empty string and returns `s[0]` itself on a
string of length 1; on a string of length at least 2 it returns, narrowed modulo 2^8, the
number that `std::stoul` in base 16 (when the string starts with `0x`) or `std::stoi` in
base 10 (otherwise) reads from it, and throws when that parser throws. In particular a
run of decimal digits within the range of `int`, and `0x` followed by hexadecimal digits
within the range of `unsigned long`, give their value modulo 2^8: `5` gives the code 53,
`05` the code 5, and `65`, `0x41` and `321` all give `A`. -/
theorem C16_char_parse (s : Str) :
    (s = [] → get_char s = Except.error Exc.invalid_argument)
    ∧ (∀ c, s = [c] → get_char s = Except.ok c)
    ∧ (∀ t, s = '0' :: 'x' :: t →
        get_char s =
          match stoul16 s with
          | Except.ok n => Except.ok (Char.ofNat (n % 256))
          | Except.error e => Except.error e)
    ∧ (s.length ≥ 2 → (∀ t, s ≠ '0' :: 'x' :: t) →
        get_char s =
          match stoi s with
          | Except.ok n => Except.ok (Char.ofNat (n % 256).toNat)
          | Except.error e => Except.error e)
    ∧ (s.length ≥ 2 → (∀ c ∈ s, isdigit c = true) → decimalValue s ≤ 2 ^ 31 - 1 →
        get_char s = Except.ok (Char.ofNat (decimalValue s % 256)))
    ∧ (∀ hs, s = '0' :: 'x' :: hs → hs ≠ [] → (∀ c ∈ hs, isxdigit c = true) →
        hexValue hs ≤ 2 ^ 64 - 1 →
        get_char s = Except.ok (Char.ofNat (hexValue hs % 256)))
    ∧ get_unsigned_char s = get_char s
    ∧ get_char "5".toList = Except.ok (Char.ofNat 53)
    ∧ get_char "05".toList = Except.ok (Char.ofNat 5)
    ∧ get_char "65".toList = Except.ok 'A'
    ∧ get_char "0x41".toList = Except.ok 'A'
    ∧ get_char "321".toList = Except.ok 'A' := by
  refine ⟨?_, ?_, ?_, get_char_plain s, get_char_decimal s, ?_, rfl, rfl, rfl, rfl, rfl, rfl⟩
  · intro h; rw [h]; rfl
  · intro c h; rw [h]; rfl
  · intro t h; rw [h]; exact get_char_prefixed t
  · intro hs h hne hx hr; rw [h]; exact get_char_hex hs hne hx hr

/-- C16 amended, on the three-digit string `577` (577 = 2 * 256 + 65). -/
theorem C16_char_parse_witness :
    get_char "577".toList = Except.ok 'A' :=
  (C16_char_parse "577".toList).2.2.2.2.1 (by decide) (by decide) (by decide)

/-- C12, as stated, fails on the token `--help`: the optional keyword `opt` has no raw
value, its conversion without a default returns the empty optional and records
`Argument missing: --opt`, yet `validate` does not fail but ends in the help outcome with
status 0. -/
theorem C12_counterexample :
    (match Args.kwargAs (optionalConv intConv) (Args.ctor [] ["--help".toList])
        "opt".toList [] none none with
      | Except.error _ => none
      | Except.ok (x, a) =>
        some (x, (a._arg_options ++ a._options).map (fun e => e.error), a.validate,
          a.validate.exitStatus))
      = some (none, [[], "Argument missing: --opt".toList], ValidateResult.helpExit,
          some 0) := by
  rfl

/-- C12, amended: on an entry with no prior error the conversion to `std::optional<E>`
follows the outer precedence of every type. A non-empty raw value gives the present
optional of its parse as `E`, and a parse that throws `std::invalid_argument` gives the
empty optional and the invalid-argument error; an empty raw value without a default gives
the empty optional and the error `Argument missing: <aliases>`. `validate` on a registry
holding an entry with an error then exits with an error when `_help` is false, and with
the help outcome when `_help` is true. -/
theorem C12_optional_outer_precedence {E : Type} (c : Conv E) (e : Entry)
    (herr : e.error = []) :
    (∀ x, e.value ≠ [] → c.get e.value = Except.ok x →
        e.convert (optionalConv c) = Except.ok (some x, e))
    ∧ (e.value ≠ [] → c.get e.value = Except.error Exc.invalid_argument →
        e.convert (optionalConv c) = Except.ok (none, { e with error := invalidMsg e }))
    ∧ (e.value = [] →
        e.convert (optionalConv c) = Except.ok (none, { e with error := missingMsg e })
        ∧ missingMsg e = "Argument missing: ".toList ++ e.get_keys)
    ∧ (∀ (a : Args) (e' : Entry), e' ∈ a._arg_options ++ a._options → e'.error ≠ [] →
        (a._help = false → ∃ msg, a.validate = ValidateResult.errorExit msg ∧ msg ≠ [])
        ∧ (a._help = true → a.validate = ValidateResult.helpExit)) := by
  refine ⟨?_, ?_, ?_, ?_⟩
  · intro x hval hget
    rw [convert_present _ e herr hval]
    simp [optionalConv, get_optional, hget]
  · intro hval hget
    rw [convert_present _ e herr hval]
    simp [optionalConv, get_optional, hget]
  · intro hval
    exact ⟨convert_missing _ e herr hval, rfl⟩
  · intro a e' hmem he'
    exact ⟨validate_of_error a e' hmem he', validate_of_help a⟩

/-- C12 amended, on the keyword `opt` of the command line `--opt=12` and of the empty
command line, converted to an optional `int`. -/
theorem C12_optional_outer_precedence_witness :
    ((Args.ctor [] ["--opt=12".toList]).kwarg "opt".toList [] none).2.convert
        (optionalConv intConv)
      = Except.ok (some (12 : Int),
          ((Args.ctor [] ["--opt=12".toList]).kwarg "opt".toList [] none).2)
    ∧ ((Args.ctor [] []).kwarg "opt".toList [] none).2.convert (optionalConv intConv)
      = Except.ok (none,
          { ((Args.ctor [] []).kwarg "opt".toList [] none).2 with
            error := missingMsg ((Args.ctor [] []).kwarg "opt".toList [] none).2 }) :=
  ⟨(C12_optional_outer_precedence intConv
      ((Args.ctor [] ["--opt=12".toList]).kwarg "opt".toList [] none).2 (by decide)).1
      12 (by decide) rfl,
    ((C12_optional_outer_precedence intConv
      ((Args.ctor [] []).kwarg "opt".toList [] none).2 (by decide)).2.2.1 (by decide)).1⟩

/-- C19, as stated, fails on `-vv file.txt`: the token `-vv` is an option token without
`=` followed by the positional-shaped `file.txt`, its last name `v` is bound to `file.txt`
in `keyword_values`, and yet `v` is added to `flags`, by the leading character of the
cluster, so that the flag `v` is true. -/
theorem C19_counterexample :
    positionalShaped "-vv".toList = false
    ∧ '=' ∉ "-vv".toList
    ∧ positionalShaped "file.txt".toList = true
    ∧ substr "-vv".toList (optStart "-vv".toList) = "v".toList
    ∧ mapFind (Args.ctor [] ["-vv".toList, "file.txt".toList])._kwargs "v".toList
        = some "file.txt".toList
    ∧ "v".toList ∉ (Args.ctor [] [])._flags
    ∧ "v".toList ∈ (Args.ctor [] ["-vv".toList, "file.txt".toList])._flags
    ∧ ((Args.ctor [] ["-vv".toList, "file.txt".toList]).flag "v".toList []).2 = true
    ∧ (Args.ctor [] ["-vv".toList, "file.txt".toList])._args = [] := by
  refine ⟨by decide, by decide, by decide, by decide, by decide, by decide, by decide,
    by decide, by decide⟩

/-- C19, amended: an option token without `=` that is immediately followed by a
positional-shaped token `p` makes the loop file `p` under the option's last name in
`keyword_values` and skip `p`: behind the two tokens the loop goes on from the registry
reached before them with that one assignment added and with `positional_values` as it
was. The occurrence adds to `flags` exactly the leading characters of a short cluster,
those between the `-` and the last character, and nothing for a long option or a single
short option such as `-v`; so the option's last name is not added to `flags` unless it is
also one of those leading characters. On `-v file.txt` the flag `v` is false, `v` maps to
`file.txt`, and the first positional has an empty raw value. -/
theorem C19_option_takes_adjacent_positional (program_name : Str) (pre post : List Str)
    (tok p : Str) (hopt : positionalShaped tok = false) (heq : '=' ∉ tok)
    (hp : positionalShaped p = true) :
    Args.tokenize program_name (pre ++ [tok, p] ++ post) =
      ctorLoop (pre ++ [tok, p] ++ post) post.length (pre.length + 2)
        { _arg_idx := (Args.tokenize program_name pre)._arg_idx,
          _help := (Args.tokenize program_name pre)._help,
          program_name := (Args.tokenize program_name pre).program_name,
          _options := (Args.tokenize program_name pre)._options,
          _arg_options := (Args.tokenize program_name pre)._arg_options,
          _args := (Args.tokenize program_name pre)._args,
          _flags := (optEnter tok (Args.tokenize program_name pre))._flags,
          _kwargs := mapAssign (substr tok (optStart tok)) p
            (Args.tokenize program_name pre)._kwargs }
    ∧ (tok.length ≤ 2 ∨ charAt tok 1 = '-' →
        (optEnter tok (Args.tokenize program_name pre))._flags
          = (Args.tokenize program_name pre)._flags)
    ∧ (charAt tok 1 ≠ '-' →
        (optEnter tok (Args.tokenize program_name pre))._flags
          = (List.range' 1 (tok.length - 2)).foldl (fun fl j => setInsert [charAt tok j] fl)
              (Args.tokenize program_name pre)._flags)
    ∧ (charAt tok 1 ≠ '-' → ∀ name,
        (name ∈ (optEnter tok (Args.tokenize program_name pre))._flags ↔
          name ∈ (Args.tokenize program_name pre)._flags
            ∨ ∃ j, 1 ≤ j ∧ j + 1 < tok.length ∧ name = [charAt tok j]))
    ∧ (substr tok (optStart tok) ∉ (Args.tokenize program_name pre)._flags →
        (∀ j, 1 ≤ j → j + 1 < tok.length → [charAt tok j] ≠ substr tok (optStart tok)) →
        substr tok (optStart tok) ∉ (optEnter tok (Args.tokenize program_name pre))._flags)
    ∧ (∀ name, tok = '-' :: '-' :: name → substr tok (optStart tok) = name)
    ∧ (∀ c, c ≠ '-' → tok = ['-', c] → substr tok (optStart tok) = [c])
    ∧ ((Args.ctor program_name ["-v".toList, "file.txt".toList]).flag "v".toList []).2 = false
    ∧ mapFind (Args.ctor program_name ["-v".toList, "file.txt".toList])._kwargs "v".toList
        = some "file.txt".toList
    ∧ (Args.ctor program_name ["-v".toList, "file.txt".toList])._flags = []
    ∧ (Args.ctor program_name ["-v".toList, "file.txt".toList])._args = []
    ∧ ((Args.ctor program_name ["-v".toList, "file.txt".toList]).arg []).2.value = [] := by
  have hp' : tokenIsParam tok = false := by rw [tokenIsParam_eq_positionalShaped]; exact hopt
  have hv : tokenIsParam p = true := by rw [tokenIsParam_eq_positionalShaped]; exact hp
  have hf := find_none_of_not_mem tok heq
  refine ⟨?_, ?_, ?_, ?_, ?_, ?_, ?_, rfl, rfl, rfl, rfl, rfl⟩
  · rw [tokenize_valued_option program_name pre post tok p hp' hf hv]
    congr 1
    rw [optEnter_eq tok (Args.tokenize program_name pre)]
  · intro h
    rw [optEnter_single tok _ heq h]
  · intro hc
    exact optEnter_flags_short tok _ heq hc
  · intro hc name
    exact mem_optEnter_iff tok _ heq hc name
  · intro hnot hlead
    by_cases hc : charAt tok 1 = '-'
    · rw [optEnter_single tok _ heq (Or.inr hc)]
      exact hnot
    · intro hmem
      rcases (mem_optEnter_iff tok _ heq hc _).1 hmem with h | ⟨j, h1, h2, h3⟩
      · exact hnot h
      · exact hlead j h1 h2 h3.symm
  · intro name h
    rw [h]
    simp [optStart, charAt, substr]
  · intro c hc h
    rw [h] at heq ⊢
    have hf2 : find ['-', c] '=' 0 = none := find_none_of_not_mem _ heq
    simp [optStart, charAt, substr, hc, j_end, hf2]

/-- C19 amended, on `--verbose out.txt` between `-a` and `-b`, and on the cluster
`-xv out.txt`, whose last name `v` is not among its leading characters. -/
theorem C19_option_takes_adjacent_positional_witness :
    mapFind (Args.tokenize []
        (["-a".toList] ++ ["--verbose".toList, "out.txt".toList] ++ ["-b".toList]))._kwargs
        "verbose".toList = some "out.txt".toList
    ∧ (Args.tokenize []
        (["-a".toList] ++ ["--verbose".toList, "out.txt".toList] ++ ["-b".toList]))._flags
        = ["a".toList, "b".toList]
    ∧ (Args.tokenize []
        (["-a".toList] ++ ["--verbose".toList, "out.txt".toList] ++ ["-b".toList]))._args = []
    ∧ (optEnter "--verbose".toList (Args.tokenize [] ["-a".toList]))._flags
        = (Args.tokenize [] ["-a".toList])._flags
    ∧ (Args.tokenize [] ["-xv".toList, "out.txt".toList])._flags = ["x".toList]
    ∧ substr "-xv".toList (optStart "-xv".toList)
        ∉ (optEnter "-xv".toList (Args.tokenize [] []))._flags :=
  ⟨by decide, by decide, by decide,
    (C19_option_takes_adjacent_positional [] ["-a".toList] ["-b".toList]
      "--verbose".toList "out.txt".toList (by decide) (by decide) (by decide)).2.1
      (Or.inr (by decide)),
    by decide,
    (C19_option_takes_adjacent_positional [] [] [] "-xv".toList "out.txt".toList
      (by decide) (by decide) (by decide)).2.2.2.2.1 (by decide)
      (by
        intro j h1 h2
        have hj : j = 1 := by
          have : ("-xv".toList).length = 3 := by decide
          omega
        rw [hj]
        decide)⟩

/-- C18, as stated, fails in four ways. On `--help` the keyword `help` gets the error
`Argument missing: --help`, yet `validate` ends in the help outcome. On
`--count=5 --count` the name `count` is in `flags` and also in `keyword_values`, so the
keyword has the raw value `5` and converts to 5 with no error. On `--a,b` the keyword
declared for `a,b` has the two aliases `a` and `b`, and the error is
`Argument missing: -a,-b`. On `--count` with a positional converted to `int` before the
keyword, `validate` exits with the positional's error `Argument missing: arg_0`. -/
theorem C18_counterexample :
    (match Args.kwargAs intConv (Args.ctor [] ["--help".toList]) "help".toList [] none none with
      | Except.error _ => none
      | Except.ok (x, a) =>
        some (x, (a._arg_options ++ a._options).map (fun e => e.error), a.validate))
      = some ((0 : Int), [[], "Argument missing: --help".toList], ValidateResult.helpExit)
    ∧ "count".toList ∈ (Args.ctor [] ["--count=5".toList, "--count".toList])._flags
    ∧ mapFind (Args.ctor [] ["--count=5".toList, "--count".toList])._kwargs "count".toList
        = some "5".toList
    ∧ (match Args.kwargAs intConv (Args.ctor [] ["--count=5".toList, "--count".toList])
          "count".toList [] none none with
        | Except.error _ => none
        | Except.ok (x, a) =>
          some (x, (a._arg_options ++ a._options).map (fun e => e.error), a.validate))
        = some ((5 : Int), [[], []], ValidateResult.returned)
    ∧ (match Args.kwargAs intConv (Args.ctor [] ["--a,b".toList]) "a,b".toList [] none none with
        | Except.error _ => none
        | Except.ok (x, a) =>
          some (x, (a._arg_options ++ a._options).map (fun e => e.error), a.validate))
        = some ((0 : Int), [[], "Argument missing: -a,-b".toList],
            ValidateResult.errorExit "Argument missing: -a,-b".toList)
    ∧ (match Args.argAs intConv (Args.ctor [] ["--count".toList]) [] none with
        | Except.error _ => none
        | Except.ok (_, a1) =>
          match Args.kwargAs intConv a1 "count".toList [] none none with
          | Except.error _ => none
          | Except.ok (x, a) =>
            some (x, (a._arg_options ++ a._options).map (fun e => e.error), a.validate))
        = some ((0 : Int),
            ["Argument missing: arg_0".toList, [], "Argument missing: --count".toList],
            ValidateResult.errorExit "Argument missing: arg_0".toList) := by
  refine ⟨rfl, by decide, by decide, rfl, rfl, rfl⟩

/-- C18, amended: a long option token `--name` (name of at least two characters, without
`=`) that is the last token or is followed by a token that is not positional-shaped only
inserts `name` into `flags`, where it stays, and adds nothing to `keyword_values`. When
moreover `name` holds no comma and no token gives `name` a value (it is not a key of
`keyword_values`), then after any declaration calls, and whatever conversions have left
on the declared entries, a keyword declared for `name` without an implicit value has an
empty raw value and its conversion to `int` without a default returns 0 and records
`Argument missing: --name`. `validate` then ends in the help outcome when `help` is in
`flags`; otherwise it exits with the first error in scan order, which is
`Argument missing: --name` when no entry declared before carries an error. -/
theorem C18_bare_long_option_is_missing_keyword (program_name name : Str)
    (pre post : List Str)
    (hlen : name.length ≥ 2) (heq : '=' ∉ name)
    (hnext : ∀ q rest, post = q :: rest → positionalShaped q = false) :
    Args.tokenize program_name (pre ++ ['-' :: '-' :: name] ++ post) =
      ctorLoop (pre ++ ['-' :: '-' :: name] ++ post) post.length (pre.length + 1)
        { _arg_idx := (Args.tokenize program_name pre)._arg_idx,
          _help := (Args.tokenize program_name pre)._help,
          program_name := (Args.tokenize program_name pre).program_name,
          _options := (Args.tokenize program_name pre)._options,
          _arg_options := (Args.tokenize program_name pre)._arg_options,
          _args := (Args.tokenize program_name pre)._args,
          _flags := setInsert name (Args.tokenize program_name pre)._flags,
          _kwargs := (Args.tokenize program_name pre)._kwargs }
    ∧ name ∈ (Args.tokenize program_name (pre ++ ['-' :: '-' :: name] ++ post))._flags
    ∧ (',' ∉ name →
        mapFind (Args.tokenize program_name
          (pre ++ ['-' :: '-' :: name] ++ post))._kwargs name = none →
        ∀ (ds : List Decl) (arg_options options : List Entry) (help : Str),
          ((((Args.ctor program_name (pre ++ ['-' :: '-' :: name] ++ post)).declareAll
              ds).withEntries arg_options options).kwarg name help none).2
            = { type := ARG_TYPE.KWARG, keys := [name], help := help, value := [],
                implicit_value := none, default_str := none, error := [] }
          ∧ ∃ a, Args.kwargAs intConv
              (((Args.ctor program_name (pre ++ ['-' :: '-' :: name] ++ post)).declareAll
                ds).withEntries arg_options options) name help none none
              = Except.ok ((0 : Int), a)
            ∧ a._arg_options = arg_options
            ∧ a._options = options ++
                [{ type := ARG_TYPE.KWARG, keys := [name], help := help, value := [],
                   implicit_value := none, default_str := none,
                   error := "Argument missing: ".toList ++ ('-' :: '-' :: name) }]
            ∧ ("help".toList ∈ (Args.tokenize program_name
                  (pre ++ ['-' :: '-' :: name] ++ post))._flags →
                a.validate = ValidateResult.helpExit)
            ∧ ("help".toList ∉ (Args.tokenize program_name
                  (pre ++ ['-' :: '-' :: name] ++ post))._flags →
                a.validate = ValidateResult.errorExit
                  ((scanErrors (arg_options ++ options)).getD
                    ("Argument missing: ".toList ++ ('-' :: '-' :: name))))
            ∧ ("help".toList ∉ (Args.tokenize program_name
                  (pre ++ ['-' :: '-' :: name] ++ post))._flags →
                (∀ e ∈ arg_options ++ options, e.error = []) →
                a.validate = ValidateResult.errorExit
                  ("Argument missing: ".toList ++ ('-' :: '-' :: name)))) := by
  have hp : tokenIsParam ('-' :: '-' :: name) = false := by
    simp [tokenIsParam, charAt, isdigit, Char.isDigit]
  have hf : find ('-' :: '-' :: name) '=' 0 = none :=
    find_none_of_not_mem _ (by simp [heq])
  have hs : optStart ('-' :: '-' :: name) = 2 := by simp [optStart, charAt]
  have he : ∀ a : Args, optEnter ('-' :: '-' :: name) a = a := by
    intro a; simp [optEnter, charAt]
  have htok := tokenize_bare_option program_name pre post _ hp hf hnext
  rw [he, hs] at htok
  have hsub : substr ('-' :: '-' :: name) 2 = name := by simp [substr]
  rw [hsub] at htok
  refine ⟨htok, ?_, ?_⟩
  · rw [htok, ctorLoop_eq_runTokens _ _ _ _ (by simp; omega)]
    exact mem_runTokens_of_mem _ _ _ (mem_setInsert_self _ _)
  · intro hcomma hk ds arg_options options help
    have hk' : mapFind ((((Args.ctor program_name
        (pre ++ ['-' :: '-' :: name] ++ post)).declareAll ds).withEntries
          arg_options options))._kwargs name = none := by
      show mapFind ((Args.ctor program_name
        (pre ++ ['-' :: '-' :: name] ++ post)).declareAll ds)._kwargs name = none
      rw [(declareAll_frame _ ds).2.2.1, (ctor_frame _ _).2.2.1]; exact hk
    have hh : ((((Args.ctor program_name
        (pre ++ ['-' :: '-' :: name] ++ post)).declareAll ds).withEntries
          arg_options options))._help
        = setHas (Args.tokenize program_name
            (pre ++ ['-' :: '-' :: name] ++ post))._flags "help".toList :=
      registry_help program_name _ ds
    have hval := validate_after_missing
      (((Args.ctor program_name (pre ++ ['-' :: '-' :: name] ++ post)).declareAll
        ds).withEntries arg_options options)
      { type := ARG_TYPE.KWARG, keys := [name], help := help, value := [],
        implicit_value := none, default_str := none,
        error := "Argument missing: ".toList ++ ('-' :: '-' :: name) } (by simp)
    refine ⟨kwarg_entry_unmatched _ name help hcomma hk', _,
      kwargAs_missing intConv _ name help hcomma hlen hk', rfl, rfl, ?_, ?_, ?_⟩
    · intro hm
      have hset : setHas (Args.tokenize program_name
          (pre ++ ['-' :: '-' :: name] ++ post))._flags "help".toList = true :=
        decide_eq_true hm
      refine hval.trans ?_
      rw [hh, hset]
      rfl
    · intro hm
      have hset : setHas (Args.tokenize program_name
          (pre ++ ['-' :: '-' :: name] ++ post))._flags "help".toList = false :=
        decide_eq_false hm
      refine hval.trans ?_
      rw [hh, hset]
      rfl
    · intro hm hnone
      have hset : setHas (Args.tokenize program_name
          (pre ++ ['-' :: '-' :: name] ++ post))._flags "help".toList = false :=
        decide_eq_false hm
      have hsc : scanErrors (arg_options ++ options) = none :=
        (scanErrors_eq_none_iff _).2 hnone
      refine hval.trans ?_
      rw [hh, hset]
      show ValidateResult.errorExit ((scanErrors (arg_options ++ options)).getD _) = _
      rw [hsc]
      rfl

/-- C18 amended, on the token list `--count` with the keyword `count`, and on `--help`. -/
theorem C18_bare_long_option_is_missing_keyword_witness :
    "count".toList ∈ (Args.tokenize [] ([] ++ ['-' :: '-' :: "count".toList] ++ []))._flags
    ∧ "help".toList ∈ (Args.tokenize [] ([] ++ ['-' :: '-' :: "help".toList] ++ []))._flags
    ∧ (match Args.kwargAs intConv (Args.ctor [] ["--count".toList]) "count".toList [] none
          none with
        | Except.error _ => none
        | Except.ok (x, a) =>
          some (x, (a._arg_options ++ a._options).map (fun e => e.error), a.validate))
        = some ((0 : Int), [[], "Argument missing: --count".toList],
            ValidateResult.errorExit "Argument missing: --count".toList) :=
  ⟨(C18_bare_long_option_is_missing_keyword [] "count".toList [] []
      (by decide) (by decide) (by intro q rest h; cases h)).2.1,
    (C18_bare_long_option_is_missing_keyword [] "help".toList [] []
      (by decide) (by decide) (by intro q rest h; cases h)).2.1,
    rfl⟩

/-- C20: `keyword_values` is the result of the assignments `name = value` made by the
value-carrying occurrences of the token list (the `name=value` form and the `name value`
form) in their order, each assignment replacing the value the name had; so a name given
a value more than once is mapped to the value of its last occurrence, and it is a key
only once. -/
theorem C20_last_value_wins (program_name : Str) (params : List Str) (name v : Str)
    (before after : List (Str × Str))
    (hocc : valueOccurrences params = before ++ (name, v) :: after)
    (hlast : ∀ o ∈ after, o.1 ≠ name) :
    mapFind (Args.tokenize program_name params)._kwargs name = some v
    ∧ ((Args.tokenize program_name params)._kwargs.map Prod.fst).Nodup
    ∧ (Args.tokenize program_name params)._kwargs
        = (valueOccurrences params).foldl (fun m o => mapAssign o.1 o.2 m) [] := by
  have hk := tokenize_kwargs program_name params
  refine ⟨?_, ?_, hk⟩
  · rw [hk, hocc]
    exact mapFind_foldl_last before after [] name v hlast
  · rw [hk]
    exact nodup_foldl_assign _ [] (by simp)

/-- C20 on `--n=1 -n 2 --x --n 3 -n=4 file`: the name `n` is given the values 1, 2, 3 and
4, by both forms, and ends with 4. -/
theorem C20_last_value_wins_witness :
    valueOccurrences ["--n=1".toList, "-n".toList, "2".toList, "--x".toList, "--n".toList,
        "3".toList, "-n=4".toList, "file".toList]
      = [("n".toList, "1".toList), ("n".toList, "2".toList), ("n".toList, "3".toList)]
          ++ ("n".toList, "4".toList) :: []
    ∧ mapFind (Args.tokenize [] ["--n=1".toList, "-n".toList, "2".toList, "--x".toList,
        "--n".toList, "3".toList, "-n=4".toList, "file".toList])._kwargs "n".toList
      = some "4".toList
    ∧ (Args.tokenize [] ["--n=1".toList, "-n".toList, "2".toList, "--x".toList,
        "--n".toList, "3".toList, "-n=4".toList, "file".toList])._kwargs
      = [("n".toList, "4".toList)] :=
  ⟨by decide,
    (C20_last_value_wins [] ["--n=1".toList, "-n".toList, "2".toList, "--x".toList,
        "--n".toList, "3".toList, "-n=4".toList, "file".toList] "n".toList "4".toList
      [("n".toList, "1".toList), ("n".toList, "2".toList), ("n".toList, "3".toList)] []
      (by decide) (by intro o ho; cases ho)).1,
    by decide⟩

end argparse
